import Mathlib

/-!
Verification development for the G-code web simulator core.

The development shallowly embeds the three components of the repository:
the lexer/validator (`parseCommandChars`, `parseGCodeChars`, `validateGCodeChars`
from the parser module), the interpreter (`GCodePathGenerator` from
`src/utils/gcodePathGenerator.ts`, embedded as `processCommand`/`generatePath`
over an explicit `GenState`), and the trajectory synthesizer
(`calculateAnimationFrames` from `src/components/GCodeViewer.vue`).

JavaScript numbers are modelled as exact rationals (`ℚ`) in the parser and
interpreter; the synthesizer, which uses square roots and trigonometry, is
modelled over the reals.  A JavaScript number that may be `NaN` is modelled
as `Option ℚ` with `none` standing for `NaN`.  Strings are modelled as
`List Char` restricted to the ASCII behaviour of the JS string functions
used by the sources.
-/

/-! ## Characters and JS string helpers -/

/-- JS whitespace (`\s` of the regexes, `trim`, `split(/\s+/)`), restricted to
the ASCII whitespace characters; the sources only ever meet ASCII input. -/
def isWsJs (c : Char) : Bool :=
  c = ' ' || c = '\t' || c = '\n' || c = '\r' || c = '\x0B' || c = '\x0C'

/-- ASCII decimal digit. -/
def isDigitCh (c : Char) : Bool := '0' ≤ c && c ≤ '9'

/-- ASCII hexadecimal digit (for the `0x` branch of `parseInt`). -/
def isHexDigitCh (c : Char) : Bool :=
  isDigitCh c || ('a' ≤ c && c ≤ 'f') || ('A' ≤ c && c ≤ 'F')

/-- Numeric value of a decimal digit. -/
def digitValNat (c : Char) : ℕ := c.toNat - '0'.toNat

/-- Numeric value of a hexadecimal digit. -/
def hexValNat (c : Char) : ℕ :=
  if isDigitCh c then c.toNat - '0'.toNat
  else if 'a' ≤ c && c ≤ 'f' then c.toNat - 'a'.toNat + 10
  else c.toNat - 'A'.toNat + 10

/-- `String.prototype.toUpperCase`, restricted to the ASCII letters that can
occur in G-code text. -/
def jsToUpper (c : Char) : Char :=
  if 'a' ≤ c ∧ c ≤ 'z' then Char.ofNat (c.toNat - 32) else c

/-- Digit-list accumulation: the value of a digit string in a given base. -/
def natOfDigits (base : ℕ) (f : Char → ℕ) (ds : List Char) : ℕ :=
  ds.foldl (fun n c => n * base + f c) 0

/-- Optional leading sign; returns (isNegative, remainder). -/
def readSign : List Char → Bool × List Char
  | '-' :: r => (true, r)
  | '+' :: r => (false, r)
  | l => (false, l)

/-- Apply a JS sign to a rational. -/
def signApply (neg : Bool) (q : ℚ) : ℚ := if neg then -q else q

/-- ECMAScript `parseInt(s)` (radix unspecified): skip leading whitespace,
optional sign, a `0x`/`0X` prefix selects base 16, otherwise base 10; the
longest digit prefix is converted, anything after it is ignored; an empty
digit prefix yields `NaN` (modelled as `none`).  Values are exact rationals
rather than IEEE doubles. -/
def jsParseInt (s : List Char) : Option ℚ :=
  let s1 := s.dropWhile isWsJs
  let p := readSign s1
  let hex : Bool := match p.2 with
    | '0' :: x :: _ => x = 'x' || x = 'X'
    | _ => false
  if hex then
    let ds := (p.2.drop 2).takeWhile isHexDigitCh
    if ds.isEmpty then none
    else some (signApply p.1 (natOfDigits 16 hexValNat ds : ℚ))
  else
    let ds := p.2.takeWhile isDigitCh
    if ds.isEmpty then none
    else some (signApply p.1 (natOfDigits 10 digitValNat ds : ℚ))

/-- ECMAScript `parseFloat(s)`: skip leading whitespace, optional sign, then
the longest prefix of the form `digits [. digits]` or `. digits`, with an
optional exponent `e|E [sign] digits` (an exponent marker without digits is
ignored).  No prefix yields `NaN` (`none`).  The `Infinity` literal is
case-sensitive in JS and the callers only pass uppercased tokens, so it is
unreachable here and not modelled.  Values are exact rationals. -/
def jsParseFloat (s : List Char) : Option ℚ :=
  let s1 := s.dropWhile isWsJs
  let p := readSign s1
  let ip := p.2.takeWhile isDigitCh
  let r1 := p.2.dropWhile isDigitCh
  let fr : List Char × List Char := match r1 with
    | '.' :: rest => (rest.takeWhile isDigitCh, rest.dropWhile isDigitCh)
    | _ => ([], r1)
  if ip.isEmpty ∧ fr.1.isEmpty then none
  else
    let mant : ℚ :=
      (natOfDigits 10 digitValNat ip : ℚ) +
        (natOfDigits 10 digitValNat fr.1 : ℚ) / ((10 : ℚ) ^ fr.1.length)
    let ex : ℤ := match fr.2 with
      | e :: rest =>
        if e = 'e' ∨ e = 'E' then
          let ep := readSign rest
          let eds := ep.2.takeWhile isDigitCh
          if eds.isEmpty then 0
          else signApply ep.1 (natOfDigits 10 digitValNat eds : ℚ) |>.num
        else 0
      | [] => 0
    some (signApply p.1 (mant * (10 : ℚ) ^ ex))

/-- `line.split(';')[0]`: the text before the first semicolon. -/
def commentFree (l : List Char) : List Char := l.takeWhile (fun c => c ≠ ';')

/-- `String.prototype.trim` (ASCII whitespace). -/
def trimJs (l : List Char) : List Char :=
  ((l.dropWhile isWsJs).reverse.dropWhile isWsJs).reverse

/-- Helper for `wordsBy`: scans the character list, accumulating the current
(reversed) token. -/
def wordsByAux (p : Char → Bool) : List Char → List Char → List (List Char)
  | [], acc => if acc.isEmpty then [] else [acc.reverse]
  | c :: cs, acc =>
    if p c then (if acc.isEmpty then [] else [acc.reverse]) ++ wordsByAux p cs []
    else wordsByAux p cs (c :: acc)

/-- `s.split(/\s+/)` on a trimmed string: the maximal runs of
non-whitespace characters (the regex collapses whitespace runs, and a
trimmed string produces no empty fields). -/
def wordsBy (p : Char → Bool) (l : List Char) : List (List Char) :=
  wordsByAux p l []

/-- `content.split('\n')` (keeps empty fields, `"" ↦ [""]`). -/
def splitLinesJs : List Char → List (List Char)
  | [] => [[]]
  | c :: cs =>
    if c = '\n' then [] :: splitLinesJs cs
    else
      match splitLinesJs cs with
      | [] => [[c]]
      | l :: ls => (c :: l) :: ls

/-! ## Lexer: instruction data model (`GCodeCommand`) -/

/-- The closed set of recognized instruction codes (`GCodeCommand['type']`). -/
inductive CmdType
  | G0 | G1 | G2 | G3 | G28 | G90 | G91 | G40 | G17 | G71 | G43
  | M104 | M140 | M106 | M107 | M03 | M06
  | T | OTHER
deriving DecidableEq

/-- The parameter map of an instruction.  `G`, `M` and `T` store the raw code
from `parseInt` and may hold `NaN` (inner `none`); the coordinate/auxiliary
letters are only stored after a non-`NaN` check, so they are plain rationals.
`P` appears in the TS interface but is never assigned (it is missing from the
recognized-letter list), so it is omitted. -/
structure Params where
  G : Option (Option ℚ) := none
  M : Option (Option ℚ) := none
  T : Option (Option ℚ) := none
  X : Option ℚ := none
  Y : Option ℚ := none
  Z : Option ℚ := none
  E : Option ℚ := none
  F : Option ℚ := none
  H : Option ℚ := none
  S : Option ℚ := none
  I : Option ℚ := none
  J : Option ℚ := none
  K : Option ℚ := none
  R : Option ℚ := none
deriving DecidableEq

/-- A parsed instruction (`GCodeCommand`). -/
structure GCodeCommand where
  type : CmdType
  lineNumber : ℕ
  nNumber : Option (Option ℚ) := none
  params : Params := {}
  raw : List Char := []
deriving DecidableEq

/-- JS truthiness test `!params['G']` on a possibly-`NaN`, possibly-absent
number: `undefined`, `NaN` and `0` are all falsy. -/
def jsFalsyNum : Option (Option ℚ) → Bool
  | none => true
  | some none => true
  | some (some q) => decide (q = 0)

/-- The `G`-code lookup chain of `parseCommand` (unlisted codes leave the
type unchanged). -/
def gTypeOf (code : Option ℚ) (old : CmdType) : CmdType :=
  if code = some 0 then .G0
  else if code = some 1 then .G1
  else if code = some 2 then .G2
  else if code = some 3 then .G3
  else if code = some 28 then .G28
  else if code = some 90 then .G90
  else if code = some 91 then .G91
  else if code = some 40 then .G40
  else if code = some 17 then .G17
  else if code = some 71 then .G71
  else if code = some 43 then .G43
  else old

/-- The `M`-code lookup chain of `parseCommand`. -/
def mTypeOf (code : Option ℚ) (old : CmdType) : CmdType :=
  if code = some 3 then .M03
  else if code = some 6 then .M06
  else if code = some 104 then .M104
  else if code = some 140 then .M140
  else if code = some 106 then .M106
  else if code = some 107 then .M107
  else old

/-- Store a value under a coordinate/auxiliary parameter letter. -/
def setCoordVal (p : Params) (letter : Char) (v : ℚ) : Params :=
  match letter with
  | 'X' => {p with X := some v}
  | 'Y' => {p with Y := some v}
  | 'Z' => {p with Z := some v}
  | 'E' => {p with E := some v}
  | 'F' => {p with F := some v}
  | 'H' => {p with H := some v}
  | 'S' => {p with S := some v}
  | 'I' => {p with I := some v}
  | 'J' => {p with J := some v}
  | 'K' => {p with K := some v}
  | 'R' => {p with R := some v}
  | _ => p

/-- Intermediate state of `parseCommand`'s token loop. -/
structure PartState where
  params : Params
  nNumber : Option (Option ℚ)
  commandType : CmdType
deriving DecidableEq

/-- One iteration of `parseCommand`'s token loop: uppercase the token, handle
an `N` line-index token, otherwise parse the numeric remainder (`parseFloat`
when it contains a dot, `parseInt` otherwise), drop the token if the value is
`NaN`, then dispatch on the leading letter.  `G`/`M`/`T` store
`parseInt(remainder)` and map the code through the lookup chains; the listed
parameter letters store the value, and a coordinate letter (`X`/`Y`/`Z`/`E`)
on a token whose `params['G']` is falsy (absent, `NaN` — or `0`, since JS `!0`
is true) re-types the instruction to `G1` and sets `params['G'] = 1`. -/
def processPart (st : PartState) (rawPart : List Char) : PartState :=
  let part := rawPart.map jsToUpper
  match part with
  | [] => st
  | p0 :: rest =>
    if p0 = 'N' then {st with nNumber := some (jsParseInt rest)}
    else
      let value : Option ℚ := if rest.contains '.' then jsParseFloat rest else jsParseInt rest
      match value with
      | none => st
      | some v =>
        if p0 = 'G' then
          let code := jsParseInt rest
          {st with commandType := gTypeOf code st.commandType,
                   params := {st.params with G := some code}}
        else if p0 = 'M' then
          let code := jsParseInt rest
          {st with commandType := mTypeOf code st.commandType,
                   params := {st.params with M := some code}}
        else if p0 = 'T' then
          {st with commandType := .T,
                   params := {st.params with T := some (jsParseInt rest)}}
        else if p0 = 'X' ∨ p0 = 'Y' ∨ p0 = 'Z' ∨ p0 = 'E' ∨ p0 = 'F' ∨ p0 = 'H' ∨
                p0 = 'S' ∨ p0 = 'I' ∨ p0 = 'J' ∨ p0 = 'K' ∨ p0 = 'R' then
          let params1 := setCoordVal st.params p0 v
          if (p0 = 'X' ∨ p0 = 'Y' ∨ p0 = 'Z' ∨ p0 = 'E') ∧ jsFalsyNum params1.G then
            {st with commandType := .G1, params := {params1 with G := some (some 1)}}
          else {st with params := params1}
        else st

/-- `parseCommand(line, lineNumber)`: strip the comment, trim, return `null`
for a blank line, split on whitespace and fold the token loop; the result
keeps the original `line` in `raw`. -/
def parseCommandChars (line : List Char) (lineNumber : ℕ) : Option GCodeCommand :=
  let cleanLine := trimJs (commentFree line)
  if cleanLine.isEmpty then none
  else
    let parts := wordsBy isWsJs cleanLine
    let st := parts.foldl processPart ⟨{}, none, .OTHER⟩
    some ⟨st.commandType, lineNumber, st.nNumber, st.params, line⟩

/-! ## Lexer: `parseGCode` and its statistics -/

/-- The `stats` record of a parse result. -/
structure GStats where
  totalLines : ℕ
  validCommands : ℕ
  maxX : ℚ
  maxY : ℚ
  maxZ : ℚ
  minX : ℚ
  minY : ℚ
  minZ : ℚ
deriving DecidableEq

/-- A parse result (`ParseResult`). -/
structure ParseResultM where
  commands : List GCodeCommand
  stats : GStats
deriving DecidableEq

/-- Accumulator of `parseGCode`'s line loop; the `±Infinity` sentinels of the
JS code are modelled by `⊥ : WithBot ℚ` and `⊤ : WithTop ℚ`, for which
`max`/`min` behave exactly like `Math.max`/`Math.min` on `±Infinity`. -/
structure PGAcc where
  commands : List GCodeCommand := []
  validCommands : ℕ := 0
  maxX : WithBot ℚ := ⊥
  maxY : WithBot ℚ := ⊥
  maxZ : WithBot ℚ := ⊥
  minX : WithTop ℚ := ⊤
  minY : WithTop ℚ := ⊤
  minZ : WithTop ℚ := ⊤

/-- One iteration of `parseGCode`'s loop: parse the line (1-indexed), push a
non-null command and update the per-axis running bounds for each coordinate
present. -/
def pgLine (acc : PGAcc) (line : List Char) (idx : ℕ) : PGAcc :=
  match parseCommandChars line (idx + 1) with
  | none => acc
  | some c =>
    { commands := acc.commands ++ [c]
      validCommands := acc.validCommands + 1
      maxX := match c.params.X with | some x => max acc.maxX ↑x | none => acc.maxX
      maxY := match c.params.Y with | some y => max acc.maxY ↑y | none => acc.maxY
      maxZ := match c.params.Z with | some z => max acc.maxZ ↑z | none => acc.maxZ
      minX := match c.params.X with | some x => min acc.minX ↑x | none => acc.minX
      minY := match c.params.Y with | some y => min acc.minY ↑y | none => acc.minY
      minZ := match c.params.Z with | some z => min acc.minZ ↑z | none => acc.minZ }

/-- The line loop of `parseGCode`. -/
def pgRun : PGAcc → ℕ → List (List Char) → PGAcc
  | acc, _, [] => acc
  | acc, i, l :: ls => pgRun (pgLine acc l i) (i + 1) ls

/-- `parseGCode(content)`: split on newlines, run the line loop, and finalize
the stats, replacing a still-infinite bound by `0`. -/
def parseGCodeChars (content : List Char) : ParseResultM :=
  let lines := splitLinesJs content
  let acc := pgRun {} 0 lines
  ⟨acc.commands,
    ⟨lines.length, acc.validCommands,
      acc.maxX.unbot' 0, acc.maxY.unbot' 0, acc.maxZ.unbot' 0,
      acc.minX.untop' 0, acc.minY.untop' 0, acc.minZ.untop' 0⟩⟩

/-! ## Validator -/

/-- `/^[GMT]\d+$/`: a code letter followed by one or more digits. -/
def tokenIsCode : List Char → Bool
  | c :: rest => (c = 'G' || c = 'M' || c = 'T') && !rest.isEmpty && rest.all isDigitCh
  | [] => false

/-- `/^[XYZEFHSIJKR][-+]?\d*\.?\d*$/`: an axis letter, optional sign,
optional digits, optional dot, optional digits, end of token. -/
def tokenIsAxis : List Char → Bool
  | c :: rest =>
    (c = 'X' || c = 'Y' || c = 'Z' || c = 'E' || c = 'F' || c = 'H' ||
     c = 'S' || c = 'I' || c = 'J' || c = 'K' || c = 'R') &&
    (let r1 := match rest with
      | '-' :: r => r
      | '+' :: r => r
      | r => r
     let r2 := r1.dropWhile isDigitCh
     let r3 := match r2 with
      | '.' :: r => r
      | r => r
     (r3.dropWhile isDigitCh).isEmpty)
  | [] => false

/-- The optional-line-index part of `/^(N\d+\s+)?(.+)$/` applied to a trimmed
non-empty line: when the line starts with `N`, one or more digits and one or
more whitespace characters, the instruction part is what follows; otherwise
it is the whole line.  (A trimmed line never ends in whitespace, so the
regex needs no backtracking.) -/
def stripLineIndex (l : List Char) : List Char :=
  match l with
  | 'N' :: rest =>
    let ds := rest.takeWhile isDigitCh
    let r1 := rest.dropWhile isDigitCh
    if ds.isEmpty then l
    else
      let ws := r1.takeWhile isWsJs
      if ws.isEmpty then l else r1.dropWhile isWsJs
  | _ => l

/-- Scan the tokens of one line: the first token matching neither pattern
yields an error (the 1-indexed line number and the offending token) and
aborts the line; the `missing instruction` branch of the source is
unreachable for a non-empty instruction part but is kept. -/
def validateLineTokens (lineNo : ℕ) (cleanLine : List Char) :
    List (List Char) → Bool → Option (ℕ × List Char)
  | [], hasValid => if hasValid then none else some (lineNo, cleanLine)
  | t :: ts, hasValid =>
    if tokenIsCode t || tokenIsAxis t then validateLineTokens lineNo cleanLine ts true
    else some (lineNo, t)

/-- `validateGCode(content)`: per line, strip comment and whitespace, skip
blank lines, strip an optional line-index token and check every remaining
token against the two patterns.  Errors are modelled by their
(line number, offending text) payload. -/
def validateGCodeChars (content : List Char) : Bool × List (ℕ × List Char) :=
  let lines := splitLinesJs content
  let errs := (lines.enum.filterMap fun li =>
    let cleanLine := trimJs (commentFree li.2)
    if cleanLine.isEmpty then none
    else validateLineTokens (li.1 + 1) cleanLine (wordsBy isWsJs (stripLineIndex cleanLine)) false)
  (errs.isEmpty, errs)

/-! ## Interpreter (`GCodePathGenerator`) -/

/-- The four move types a path point or segment can carry. -/
inductive MoveType | G0 | G1 | G2 | G3
deriving DecidableEq

/-- The unchecked TS cast `command.type as MoveType`; the generator only
applies it to `G0`/`G1`/`G2`/`G3` commands. -/
def asMoveType : CmdType → MoveType
  | .G0 => .G0
  | .G1 => .G1
  | .G2 => .G2
  | .G3 => .G3
  | _ => .G0

/-- A 3D vector in machine coordinates (`THREE.Vector3` with rational
components). -/
structure V3 where
  x : ℚ
  y : ℚ
  z : ℚ
deriving DecidableEq

/-- The optional arc parameters attached to a `PathPoint` (`params`); the
interpreter only ever sets `I`/`J`/`K`, each copied from the command and
possibly absent. -/
structure ArcParams where
  i : Option ℚ := none
  j : Option ℚ := none
  k : Option ℚ := none
  f : Option ℚ := none
deriving DecidableEq

/-- A path point (`PathPoint`): absolute position, move type, feedrate and
extrusion at emission (optional in the TS interface; home points omit
extrusion), source line and optional arc parameters. -/
structure PathPoint where
  position : V3
  type : MoveType
  feedrate : Option ℚ := none
  extrusion : Option ℚ := none
  lineNumber : ℕ
  params : Option ArcParams := none
deriving DecidableEq

/-- A path segment (`PathSegment`). -/
structure PathSegment where
  points : List PathPoint
  type : MoveType
  isExtruding : Bool
deriving DecidableEq

/-- The persistent interpreter state (the private fields of
`GCodePathGenerator`). -/
structure GenState where
  currentPosition : V3
  currentExtrusion : ℚ
  isAbsolutePositioning : Bool
  isAbsoluteExtrusion : Bool
  segments : List PathSegment
  currentSegment : Option PathSegment
  currentFeedrate : ℚ
deriving DecidableEq

/-- The constructor / `reset()` state. -/
def initialState : GenState :=
  ⟨⟨0, 0, 0⟩, 0, true, true, [], none, 0⟩

/-- `calculateNewPosition`: per axis, replace (absolute) or add
(incremental) when the parameter is present, else keep the current value. -/
def calculateNewPosition (s : GenState) (c : GCodeCommand) : V3 :=
  if s.isAbsolutePositioning then
    ⟨c.params.X.getD s.currentPosition.x,
     c.params.Y.getD s.currentPosition.y,
     c.params.Z.getD s.currentPosition.z⟩
  else
    ⟨(match c.params.X with | some vx => s.currentPosition.x + vx | none => s.currentPosition.x),
     (match c.params.Y with | some vy => s.currentPosition.y + vy | none => s.currentPosition.y),
     (match c.params.Z with | some vz => s.currentPosition.z + vz | none => s.currentPosition.z)⟩

/-- `calculateNewExtrusion`: hold when `E` is absent, replace in absolute
extrusion mode, add in incremental mode. -/
def calculateNewExtrusion (s : GenState) (c : GCodeCommand) : ℚ :=
  match c.params.E with
  | none => s.currentExtrusion
  | some e => if s.isAbsoluteExtrusion then e else s.currentExtrusion + e

/-- Helper shared by the three emitters: push the current segment into the
output only when it is non-empty (the segment-close step of the source). -/
def closeSegment (segs : List PathSegment) : Option PathSegment → List PathSegment
  | some seg => if seg.points.length > 0 then segs ++ [seg] else segs
  | none => segs

/-- `processLinearMove` (`G0`/`G1`): compute the new position and extrusion,
derive `isExtruding = newExtrusion > currentExtrusion`, start a new segment
when none is open or its type/extruding flag differ, append the new point
and commit position and extrusion. -/
def processLinearMove (s : GenState) (c : GCodeCommand) : GenState :=
  let newPosition := calculateNewPosition s c
  let newExtrusion := calculateNewExtrusion s c
  let isExt : Bool := decide (s.currentExtrusion < newExtrusion)
  let mt := asMoveType c.type
  let point : PathPoint :=
    ⟨newPosition, mt, some s.currentFeedrate, some newExtrusion, c.lineNumber, none⟩
  match s.currentSegment with
  | some seg =>
    if seg.type = mt ∧ seg.isExtruding = isExt then
      {s with currentSegment := some {seg with points := seg.points ++ [point]},
              currentPosition := newPosition, currentExtrusion := newExtrusion}
    else
      {s with segments := closeSegment s.segments (some seg),
              currentSegment := some ⟨[point], mt, isExt⟩,
              currentPosition := newPosition, currentExtrusion := newExtrusion}
  | none =>
    {s with currentSegment := some ⟨[point], mt, isExt⟩,
            currentPosition := newPosition, currentExtrusion := newExtrusion}

/-- The arc end position: per axis, absolute/incremental when the parameter
is present, else the current value (inlined in `processArcMove`). -/
def arcEndPosition (s : GenState) (c : GCodeCommand) : V3 :=
  ⟨(match c.params.X with
    | some vx => if s.isAbsolutePositioning then vx else s.currentPosition.x + vx
    | none => s.currentPosition.x),
   (match c.params.Y with
    | some vy => if s.isAbsolutePositioning then vy else s.currentPosition.y + vy
    | none => s.currentPosition.y),
   (match c.params.Z with
    | some vz => if s.isAbsolutePositioning then vz else s.currentPosition.z + vz
    | none => s.currentPosition.z)⟩

/-- The squared start-to-center distance of an arc.  The source computes
`center = start + (I || 0, J || 0, K || 0)` and
`radius = center.distanceTo(start)` (a square root) and rejects the arc when
`radius < 0.001`; the guard is encoded here on squares
(`radius < 0.001 ↔ radiusSq < 0.001²`, both sides being non-negative), which
keeps the embedding within the rationals. -/
def arcRadiusSq (s : GenState) (c : GCodeCommand) : ℚ :=
  let di := c.params.I.getD 0
  let dj := c.params.J.getD 0
  let dk := c.params.K.getD 0
  di * di + dj * dj + dk * dk

/-- Overwrite the `params` of the last point of a list (the in-place
`lastPoint.params = arcParams` of the source). -/
def setLastParams (prm : ArcParams) : List PathPoint → List PathPoint
  | [] => []
  | [p] => [{p with params := some prm}]
  | p :: q :: rest => p :: setLastParams prm (q :: rest)

/-- `processArcMove` (`G2`/`G3`): resolve the end position; skip when the
in-plane end equals the start; skip when the radius is below `0.001`;
otherwise apply the same segment-boundary rule as linear moves, push a
leading start point carrying the arc parameters when the open segment is
empty (overwriting the previous last point's parameters otherwise), push the
trailing end point with the same parameters and commit the end position and
extrusion. -/
def processArcMove (s : GenState) (c : GCodeCommand) : GenState :=
  let startPosition := s.currentPosition
  let endPosition := arcEndPosition s c
  if endPosition.x = startPosition.x ∧ endPosition.y = startPosition.y then s
  else if arcRadiusSq s c < 1 / 1000000 then s
  else
    let newExtrusion := calculateNewExtrusion s c
    let isExt : Bool := decide (s.currentExtrusion < newExtrusion)
    let mt := asMoveType c.type
    let prm : ArcParams := ⟨c.params.I, c.params.J, c.params.K, none⟩
    let startPoint : PathPoint :=
      ⟨startPosition, mt, some s.currentFeedrate, some s.currentExtrusion, c.lineNumber, some prm⟩
    let endPoint : PathPoint :=
      ⟨endPosition, mt, some s.currentFeedrate, some newExtrusion, c.lineNumber, some prm⟩
    match s.currentSegment with
    | some seg =>
      if seg.type = mt ∧ seg.isExtruding = isExt then
        let pts := if seg.points.isEmpty then [startPoint, endPoint]
                   else setLastParams prm seg.points ++ [endPoint]
        {s with currentSegment := some {seg with points := pts},
                currentPosition := endPosition, currentExtrusion := newExtrusion}
      else
        {s with segments := closeSegment s.segments (some seg),
                currentSegment := some ⟨[startPoint, endPoint], mt, isExt⟩,
                currentPosition := endPosition, currentExtrusion := newExtrusion}
    | none =>
      {s with currentSegment := some ⟨[startPoint, endPoint], mt, isExt⟩,
              currentPosition := endPosition, currentExtrusion := newExtrusion}

/-- `processHomeMove` (`G28`): the source initializes `homePosition` to the
origin and then assigns `0` to each axis named on the line — every branch
yields `0`, so the computed home position is always the origin, whether or
not axes are named (see the claim about home-axis selectivity).  It then
unconditionally closes the open segment, opens a new non-extruding `G0`
segment holding the single home point (which carries the current feedrate
and no extrusion), and commits the position. -/
def processHomeMove (s : GenState) (c : GCodeCommand) : GenState :=
  let homePosition : V3 :=
    ⟨if c.params.X.isSome then 0 else 0,
     if c.params.Y.isSome then 0 else 0,
     if c.params.Z.isSome then 0 else 0⟩
  let point : PathPoint := ⟨homePosition, .G0, some s.currentFeedrate, none, c.lineNumber, none⟩
  {s with segments := closeSegment s.segments s.currentSegment,
          currentSegment := some ⟨[point], .G0, false⟩,
          currentPosition := homePosition}

/-- `processCommand`: dispatch on the instruction type, then apply the
feed-parameter update (for every instruction type, after any point was
emitted). -/
def processCommand (s : GenState) (c : GCodeCommand) : GenState :=
  let s1 := match c.type with
    | .G0 | .G1 => processLinearMove s c
    | .G2 | .G3 => processArcMove s c
    | .G90 => {s with isAbsolutePositioning := true}
    | .G91 => {s with isAbsolutePositioning := false}
    | .G28 => processHomeMove s c
    | _ => s
  match c.params.F with
  | some f => {s1 with currentFeedrate := f}
  | none => s1

/-- `generatePath(commands)`: reset, fold the instruction stream, flush a
trailing non-empty open segment and return the segment list. -/
def generatePath (cmds : List GCodeCommand) : List PathSegment :=
  let s := cmds.foldl processCommand initialState
  closeSegment s.segments s.currentSegment

/-! ## Trajectory synthesizer (`calculateAnimationFrames`, GCodeViewer.vue)

The viewer works on real-valued geometry (square roots, `atan2`,
`THREE.EllipseCurve`), so this part of the embedding lives over `ℝ`.  The
viewer declares its own `PathPoint` interface (position plus optional arc
parameters); segments reach it from the generator, but the function is total
in its segment-list argument, so it is embedded over viewer-level structures.
`THREE.EllipseCurve` is an external library: its `getPoint` sampling function
is taken as a parameter `ep` of the embedding, applied to the exact
constructor arguments the viewer passes. -/

/-- Real-valued 3D vector for the viewer. -/
structure RV3 where
  x : ℝ
  y : ℝ
  z : ℝ

/-- Viewer-side optional arc parameters (real-valued). -/
structure ArcParamsR where
  i : Option ℝ := none
  j : Option ℝ := none
  k : Option ℝ := none
  f : Option ℝ := none

/-- Viewer-side path point (the `PathPoint` interface of GCodeViewer.vue). -/
structure VPoint where
  position : RV3
  params : Option ArcParamsR := none

/-- Viewer-side path segment. -/
structure VSegment where
  points : List VPoint
  type : MoveType
  isExtruding : Bool

/-- An animation frame (`AnimationFrame`). -/
structure AnimationFrame where
  position : RV3
  segmentIndex : ℕ
  pointIndex : ℕ
  time : ℝ

/-- `THREE.Vector3.distanceTo`. -/
noncomputable def dist3 (a b : RV3) : ℝ :=
  Real.sqrt ((b.x - a.x) ^ 2 + (b.y - a.y) ^ 2 + (b.z - a.z) ^ 2)

/-- `THREE.Vector2.distanceTo` (used on sampled curve points). -/
noncomputable def dist2 (a b : ℝ × ℝ) : ℝ :=
  Real.sqrt ((b.1 - a.1) ^ 2 + (b.2 - a.2) ^ 2)

/-- `Math.atan2(y, x)` (signed zeros aside, which `ℝ` cannot express). -/
noncomputable def atan2 (y x : ℝ) : ℝ :=
  if 0 < x then Real.arctan (y / x)
  else if x < 0 then
    (if 0 ≤ y then Real.arctan (y / x) + Real.pi else Real.arctan (y / x) - Real.pi)
  else if 0 < y then Real.pi / 2
  else if y < 0 then -(Real.pi / 2)
  else 0

/-- The constructor arguments of a `THREE.EllipseCurve`. -/
structure EllipseSpec where
  aX : ℝ
  aY : ℝ
  xRadius : ℝ
  yRadius : ℝ
  aStartAngle : ℝ
  aEndAngle : ℝ
  aClockwise : Bool

/-- `Curve.getPoints(n)`: the `n + 1` samples of the curve at `t = d / n`. -/
noncomputable def curveGetPoints (ep : EllipseSpec → ℝ → ℝ × ℝ) (spec : EllipseSpec) (n : ℕ) :
    List (ℝ × ℝ) :=
  (List.range (n + 1)).map fun d => ep spec ((d : ℝ) / (n : ℝ))

/-- The chord-length sum `Σ points[i].distanceTo(points[i-1])`. -/
noncomputable def chordSum : List (ℝ × ℝ) → ℝ
  | [] => 0
  | [_] => 0
  | a :: b :: r => dist2 a b + chordSum (b :: r)

/-- The straight-line branch of the synthesizer for one point pair:
`numFrames = max(10, ceil(2 · distance))`, `frameTime = length/speed/numFrames`,
and `numFrames + 1` frames at `t = i / numFrames`, positioned by per-axis
linear interpolation, timed at `t0 + frameTime · i`. -/
noncomputable def lineFrames (sps t0 : ℝ) (sIdx pIdx : ℕ) (p1 p2 : RV3) :
    List AnimationFrame :=
  let segmentLength := dist3 p1 p2
  let numFrames : ℕ := max 10 (Int.toNat ⌈segmentLength * 2⌉)
  let frameTime := segmentLength / sps / (numFrames : ℝ)
  (List.range (numFrames + 1)).map fun (i : ℕ) =>
    let t := (i : ℝ) / (numFrames : ℝ)
    { position := ⟨p1.x + (p2.x - p1.x) * t, p1.y + (p2.y - p1.y) * t,
                   p1.z + (p2.z - p1.z) * t⟩
      segmentIndex := sIdx
      pointIndex := pIdx
      time := t0 + frameTime * (i : ℝ) }

/-- The arc geometry of one point pair: center from the leading point's
`I`/`J` offsets (`?? 0`) with the z-coordinate of the start (the `K` offset
is not consulted), radius, `atan2` start/end angles, and the direction-forced
sweep (`±2π` wrap when the naive difference has the wrong sign for
`G2`/`G3`).  Returns the sweep and the `EllipseCurve` constructor
arguments. -/
noncomputable def arcPairData (cw : Bool) (p1pos p2pos : RV3) (prm : Option ArcParamsR) :
    ℝ × EllipseSpec :=
  let i := (prm.bind (fun q => q.i)).getD 0
  let j := (prm.bind (fun q => q.j)).getD 0
  let center : RV3 := ⟨p1pos.x + i, p1pos.y + j, p1pos.z⟩
  let radius := dist3 p1pos center
  let startAngle := atan2 (p1pos.y - center.y) (p1pos.x - center.x)
  let endAngle := atan2 (p2pos.y - center.y) (p2pos.x - center.x)
  let angleDiff0 := endAngle - startAngle
  let angleDiff :=
    if cw then (if 0 ≤ angleDiff0 then angleDiff0 - 2 * Real.pi else angleDiff0)
    else (if angleDiff0 ≤ 0 then angleDiff0 + 2 * Real.pi else angleDiff0)
  (angleDiff, ⟨center.x, center.y, radius, radius, startAngle, startAngle + angleDiff, cw⟩)

/-- The arc branch of the synthesizer for one point pair: sample the curve at
`max(50, ceil(|sweep| · radius · 2))` resolution to estimate the arc length by
chord sums, then emit `max(50, ceil(2 · arcLength)) + 1` frames whose in-plane
coordinates come from the curve at `t` and whose z is linearly interpolated.
Returns the frames and the estimated arc length. -/
noncomputable def arcFrames (ep : EllipseSpec → ℝ → ℝ × ℝ) (sps t0 : ℝ) (sIdx pIdx : ℕ)
    (cw : Bool) (p1pos p2pos : RV3) (prm : Option ArcParamsR) :
    List AnimationFrame × ℝ :=
  let ad := arcPairData cw p1pos p2pos prm
  let numPoints : ℕ := max 50 (Int.toNat ⌈|ad.1| * ad.2.xRadius * 2⌉)
  let pts := curveGetPoints ep ad.2 numPoints
  let segmentLength := chordSum pts
  let numFrames : ℕ := max 50 (Int.toNat ⌈segmentLength * 2⌉)
  let frameTime := segmentLength / sps / (numFrames : ℝ)
  ((List.range (numFrames + 1)).map fun (i : ℕ) =>
      let t := (i : ℝ) / (numFrames : ℝ)
      let pt := ep ad.2 t
      { position := ⟨pt.1, pt.2, p1pos.z + (p2pos.z - p1pos.z) * t⟩
        segmentIndex := sIdx
        pointIndex := pIdx
        time := t0 + frameTime * (i : ℝ) : AnimationFrame },
    segmentLength)

/-- The running state of the synthesizer's segment loop. -/
structure SynthState where
  frames : List AnimationFrame := []
  currentTime : ℝ := 0
  lastPosition : Option RV3 := none

/-- Process one point pair (`p1 → p2`): arc segments use the arc branch
(clockwise for `G2`), others the straight-line branch; afterwards the time
accumulator advances by `segmentLength / speed-per-second` and the last
position becomes `p2`. -/
noncomputable def processPair (ep : EllipseSpec → ℝ → ℝ × ℝ) (sps : ℝ) (sIdx pIdx : ℕ)
    (ty : MoveType) (p1pos p2pos : RV3) (prm : Option ArcParamsR) (st : SynthState) :
    SynthState :=
  if ty = .G2 ∨ ty = .G3 then
    let fs := arcFrames ep sps st.currentTime sIdx pIdx (ty = .G2) p1pos p2pos prm
    ⟨st.frames ++ fs.1, st.currentTime + fs.2 / sps, some p2pos⟩
  else
    let segmentLength := dist3 p1pos p2pos
    ⟨st.frames ++ lineFrames sps st.currentTime sIdx pIdx p1pos p2pos,
      st.currentTime + segmentLength / sps, some p2pos⟩

/-- Process one segment: a single-point segment is paired with the last
emitted position (or, for the very first point overall, produces one
zero-duration anchor frame, using the single point's own arc parameters in
the arc case); a longer segment processes its consecutive point pairs in
order, the pair at `pointIndex` using the leading point's arc parameters. -/
noncomputable def processSegment (ep : EllipseSpec → ℝ → ℝ × ℝ) (sps : ℝ)
    (st : SynthState) (sIdx : ℕ) (seg : VSegment) : SynthState :=
  match seg.points with
  | [p] =>
    (match st.lastPosition with
     | none => ⟨st.frames ++ [⟨p.position, sIdx, 0, st.currentTime⟩],
                st.currentTime, some p.position⟩
     | some lp => processPair ep sps sIdx 0 seg.type lp p.position p.params st)
  | pts =>
    ((pts.zip pts.tail).enum).foldl
      (fun acc pr => processPair ep sps sIdx pr.1 seg.type pr.2.1.position pr.2.2.position
        pr.2.1.params acc) st

/-- The unsorted frame stream: fold the segment loop (with
`speed-per-second = playbackSpeed / 60`) over the indexed segments. -/
noncomputable def framesUnsorted (ep : EllipseSpec → ℝ → ℝ × ℝ)
    (segs : List VSegment) (playbackSpeed : ℝ) : List AnimationFrame :=
  let sps := playbackSpeed / 60
  ((segs.enum).foldl (fun st pr => processSegment ep sps st pr.1 pr.2) {}).frames

/-- `calculateAnimationFrames(segments)`: empty input returns the empty list;
otherwise the frame stream is built and defensively sorted by time
(`frames.sort((a, b) => a.time - b.time)`, a stable ascending sort). -/
noncomputable def calculateAnimationFrames (ep : EllipseSpec → ℝ → ℝ × ℝ)
    (segs : List VSegment) (playbackSpeed : ℝ) : List AnimationFrame :=
  if segs.isEmpty then []
  else (framesUnsorted ep segs playbackSpeed).mergeSort
    (fun a b => decide (a.time ≤ b.time))

/-! ## Derived notions used by the verification -/

/-- The segments a generator state holds: the closed output plus the open
segment, in output order. -/
def allSegs (s : GenState) : List PathSegment :=
  s.segments ++ (match s.currentSegment with | some seg => [seg] | none => [])

/-- Two adjacent segments differ in move type or extruding flag. -/
def segTagDiff (a b : PathSegment) : Prop :=
  a.type ≠ b.type ∨ a.isExtruding ≠ b.isExtruding

instance : ∀ a b, Decidable (segTagDiff a b) := fun a b =>
  inferInstanceAs (Decidable (a.type ≠ b.type ∨ a.isExtruding ≠ b.isExtruding))

/-- Consecutive-point extrusion consistency: both points carry an extrusion
value and the strict-increase test between them matches the flag `e`. -/
def extOk (e : Bool) (p q : PathPoint) : Bool :=
  match p.extrusion, q.extrusion with
  | some a, some b => decide (a < b) == e
  | _, _ => false

/-- The last two points of the list exist and carry the same (present) arc
parameter set. -/
def lastTwoParamsShared (pts : List PathPoint) : Prop :=
  ∃ l p q a, pts = l ++ [p, q] ∧ p.params = some a ∧ q.params = some a

/-- The claim-level pairing shape for arc parameters: the list is a
concatenation of adjacent pairs, each pair present and identical. -/
def pairedParamsOk : List (Option ArcParams) → Bool
  | [] => true
  | some a :: some b :: r => (a == b) && pairedParamsOk r
  | _ => false

/-- A parsed instruction without its `raw` field. -/
def dropRawFields (c : GCodeCommand) : CmdType × ℕ × Option (Option ℚ) × Params :=
  (c.type, c.lineNumber, c.nNumber, c.params)

/-- The commands collected by `parseGCode`'s loop from a given line index on
(specification-side restatement of the loop's command accumulation). -/
def parsedLines : List (List Char) → ℕ → List GCodeCommand
  | [], _ => []
  | l :: ls, i =>
    match parseCommandChars l (i + 1) with
    | some c => c :: parsedLines ls (i + 1)
    | none => parsedLines ls (i + 1)

/-- The home-free interpreter invariant: the open segment is non-empty, an
absent open segment means no output yet, every point's type matches its
segment, adjacent segments differ in tag, consecutive points in a segment
satisfy the extruding-flag consistency, and the open segment's last point
carries the committed extrusion. -/
structure GenInv (s : GenState) : Prop where
  curNE : ∀ seg, s.currentSegment = some seg → seg.points ≠ []
  curNone : s.currentSegment = none → s.segments = []
  types : ∀ seg ∈ allSegs s, ∀ p ∈ seg.points, p.type = seg.type
  chain : List.Chain' segTagDiff (allSegs s)
  flags : ∀ seg ∈ allSegs s,
    List.Chain' (fun p q => extOk seg.isExtruding p q = true) seg.points
  lastE : ∀ seg, s.currentSegment = some seg →
    ∃ p, seg.points.getLast? = some p ∧ p.extrusion = some s.currentExtrusion

/-- The arc-pairing interpreter invariant (holds for every instruction
stream): the open segment is non-empty and every arc-typed segment ends in
two points sharing one present arc-parameter set. -/
structure ArcInv (s : GenState) : Prop where
  curNE : ∀ seg, s.currentSegment = some seg → seg.points ≠ []
  pairs : ∀ seg ∈ allSegs s, (seg.type = .G2 ∨ seg.type = .G3) →
    lastTwoParamsShared seg.points

/-! ## Concrete inputs used by witnesses and counterexamples -/

/-- `G0 X10` as seen by the interpreter. -/
def cmdG0X10 : GCodeCommand := {type := .G0, lineNumber := 1, params := {X := some 10}}

/-- A bare `G28`. -/
def cmdHomeBare : GCodeCommand := {type := .G28, lineNumber := 2}

/-- `G1 X10 E5`. -/
def cmdG1X10E5 : GCodeCommand := {type := .G1, lineNumber := 1, params := {X := some 10, E := some 5}}

/-- `G1 X5 Y6 Z7`. -/
def cmdG1X5Y6Z7 : GCodeCommand :=
  {type := .G1, lineNumber := 1, params := {X := some 5, Y := some 6, Z := some 7}}

/-- `G28 X0`: a home naming only the X axis. -/
def cmdHomeX : GCodeCommand := {type := .G28, lineNumber := 2, params := {X := some 0}}

/-- `G2 X10 I5` from the origin. -/
def cmdArcA : GCodeCommand := {type := .G2, lineNumber := 1, params := {X := some 10, I := some 5}}

/-- `G2 X0 I-3`, a second arc chained onto the first. -/
def cmdArcB : GCodeCommand := {type := .G2, lineNumber := 2, params := {X := some 0, I := some (-3)}}

/-- `G28 F100`: a home carrying a feed parameter. -/
def cmdHomeF : GCodeCommand := {type := .G28, lineNumber := 1, params := {F := some 100}}

/-- A `G2` naming no axes: its resolved end equals its start. -/
def cmdArcDegen : GCodeCommand := {type := .G2, lineNumber := 1}

/-- The one segment produced by `generatePath [cmdArcA]`. -/
def arcWitnessSeg : PathSegment :=
  ⟨[⟨⟨0, 0, 0⟩, .G2, some 0, some 0, 1, some ⟨some 5, none, none, none⟩⟩,
    ⟨⟨10, 0, 0⟩, .G2, some 0, some 0, 1, some ⟨some 5, none, none, none⟩⟩], .G2, false⟩

/-- A trivial stand-in for the external ellipse sampling function. -/
def epZero : EllipseSpec → ℝ → ℝ × ℝ := fun _ _ => (0, 0)

/-- A one-point rapid segment at the origin (viewer side). -/
def vSegAnchor : VSegment := ⟨[⟨⟨0, 0, 0⟩, none⟩], .G0, false⟩

/-- Viewer-side point at the origin. -/
def vPointA : VPoint := ⟨⟨0, 0, 0⟩, none⟩

/-- Viewer-side point at `(3, 4, 0)`. -/
def vPointB : VPoint := ⟨⟨3, 4, 0⟩, none⟩

/-! ## Character-level lemmas -/

theorem char_toNat_ofNat_small {n : ℕ} (h : n < 55296) : (Char.ofNat n).toNat = n := by
  unfold Char.ofNat
  rw [dif_pos (Or.inl h)]
  simp [Char.ofNatAux, Char.toNat, UInt32.ofNat', UInt32.toNat, BitVec.ofNatLt]

theorem char_toNat_inj {a b : Char} (h : a.toNat = b.toNat) : a = b :=
  Char.ext (UInt32.ext h)

theorem char_le_iff_toNat (a b : Char) : a ≤ b ↔ a.toNat ≤ b.toNat := by
  rw [Char.le_def]
  rfl

theorem jsToUpper_toNat (c : Char) :
    (jsToUpper c).toNat = if 97 ≤ c.toNat ∧ c.toNat ≤ 122 then c.toNat - 32 else c.toNat := by
  unfold jsToUpper
  by_cases h : 'a' ≤ c ∧ c ≤ 'z'
  · rw [if_pos h]
    obtain ⟨h1, h2⟩ := h
    rw [char_le_iff_toNat] at h1 h2
    have ha : ('a' : Char).toNat = 97 := by decide
    have hz : ('z' : Char).toNat = 122 := by decide
    rw [ha] at h1
    rw [hz] at h2
    rw [if_pos ⟨h1, h2⟩]
    exact char_toNat_ofNat_small (by omega)
  · rw [if_neg h, if_neg]
    intro hc
    refine h ⟨(char_le_iff_toNat ..).mpr ?_, (char_le_iff_toNat ..).mpr ?_⟩
    · have : ('a' : Char).toNat = 97 := by decide
      omega
    · have : ('z' : Char).toNat = 122 := by decide
      omega

theorem jsToUpper_idem (c : Char) : jsToUpper (jsToUpper c) = jsToUpper c := by
  apply char_toNat_inj
  rw [jsToUpper_toNat, jsToUpper_toNat]
  split_ifs <;> omega

theorem jsToUpper_eq_low {d : Char} (hd : d.toNat < 65) (c : Char) :
    jsToUpper c = d ↔ c = d := by
  constructor
  · intro h
    have h' := congrArg Char.toNat h
    rw [jsToUpper_toNat] at h'
    split_ifs at h' with h2
    · omega
    · exact char_toNat_inj h'
  · intro h
    subst h
    apply char_toNat_inj
    rw [jsToUpper_toNat, if_neg]
    omega

theorem isWsJs_jsToUpper (c : Char) : isWsJs (jsToUpper c) = isWsJs c := by
  unfold isWsJs
  rw [decide_eq_decide.mpr (jsToUpper_eq_low (by decide) c),
    decide_eq_decide.mpr (jsToUpper_eq_low (by decide) c),
    decide_eq_decide.mpr (jsToUpper_eq_low (by decide) c),
    decide_eq_decide.mpr (jsToUpper_eq_low (by decide) c),
    decide_eq_decide.mpr (jsToUpper_eq_low (by decide) c),
    decide_eq_decide.mpr (jsToUpper_eq_low (by decide) c)]

theorem semi_jsToUpper (c : Char) :
    (decide (jsToUpper c ≠ ';')) = (decide (c ≠ ';')) := by
  apply decide_eq_decide.mpr
  exact not_congr (jsToUpper_eq_low (by decide) c)

/-! ## String-level lemmas: parsing commutes with uppercasing -/

theorem commentFree_map_upper (l : List Char) :
    commentFree (l.map jsToUpper) = (commentFree l).map jsToUpper := by
  unfold commentFree
  rw [List.takeWhile_map]
  have h : ((fun c => decide (c ≠ ';')) ∘ jsToUpper) = (fun c => decide (c ≠ ';')) :=
    funext fun c => semi_jsToUpper c
  rw [h]

theorem trimJs_map_upper (l : List Char) :
    trimJs (l.map jsToUpper) = (trimJs l).map jsToUpper := by
  have hws : isWsJs ∘ jsToUpper = isWsJs := funext isWsJs_jsToUpper
  unfold trimJs
  rw [List.dropWhile_map, hws, ← List.map_reverse, List.dropWhile_map, hws,
    ← List.map_reverse]

theorem wordsByAux_map_upper (l acc : List Char) :
    wordsByAux isWsJs (l.map jsToUpper) (acc.map jsToUpper)
      = (wordsByAux isWsJs l acc).map (List.map jsToUpper) := by
  induction l generalizing acc with
  | nil => cases acc <;> simp [wordsByAux]
  | cons c cs ih =>
    by_cases h : isWsJs c
    · have h' : isWsJs (jsToUpper c) = true := by rw [isWsJs_jsToUpper]; exact h
      have h0 := ih ([] : List Char)
      simp only [List.map_cons, wordsByAux, h, h', if_true, List.map_nil] at h0 ⊢
      cases acc <;> simp [h0]
    · have h' : isWsJs (jsToUpper c) = false := by rw [isWsJs_jsToUpper]; simpa using h
      have h0 := ih (c :: acc)
      simp only [List.map_cons] at h0
      simp only [List.map_cons, wordsByAux, h', if_false, h0]
      simp [h]

theorem wordsBy_map_upper (l : List Char) :
    wordsBy isWsJs (l.map jsToUpper) = (wordsBy isWsJs l).map (List.map jsToUpper) := by
  unfold wordsBy
  simpa using wordsByAux_map_upper l []

theorem processPart_map_upper (st : PartState) (part : List Char) :
    processPart st (part.map jsToUpper) = processPart st part := by
  unfold processPart
  have h : jsToUpper ∘ jsToUpper = jsToUpper := funext fun c => jsToUpper_idem c
  rw [List.map_map, h]

theorem parseCommandChars_map_upper (l : List Char) (n : ℕ) :
    (parseCommandChars (l.map jsToUpper) n).map dropRawFields
      = (parseCommandChars l n).map dropRawFields := by
  unfold parseCommandChars
  rw [commentFree_map_upper, trimJs_map_upper]
  by_cases h : trimJs (commentFree l) = []
  · simp [h]
  · have h' : ((trimJs (commentFree l)).map jsToUpper).isEmpty = false := by
      cases hc : trimJs (commentFree l) <;> simp_all
    have hemp : (trimJs (commentFree l)).isEmpty = false := by
      cases hc : trimJs (commentFree l) <;> simp_all
    simp only [h', hemp, Bool.false_eq_true, if_false]
    rw [wordsBy_map_upper, List.foldl_map]
    have : (fun (s : PartState) (x : List Char) => processPart s (x.map jsToUpper))
        = processPart := by
      funext s x
      exact processPart_map_upper s x
    rw [this]
    rfl

/-! ## Interpreter invariant lemmas -/

theorem closeSegment_of_ne (segs : List PathSegment) (seg : PathSegment)
    (h : seg.points ≠ []) : closeSegment segs (some seg) = segs ++ [seg] := by
  show (if seg.points.length > 0 then segs ++ [seg] else segs) = segs ++ [seg]
  rw [if_pos]
  exact List.length_pos.mpr h

theorem allSegs_eq (s : GenState) (h : ∀ seg, s.currentSegment = some seg → seg.points ≠ []) :
    closeSegment s.segments s.currentSegment = allSegs s := by
  unfold allSegs
  cases hcur : s.currentSegment with
  | none => simp [closeSegment]
  | some seg => rw [closeSegment_of_ne _ _ (h seg hcur)]

theorem chain'_concat_of {α : Type} {R : α → α → Prop} {l : List α} {a : α}
    (h : List.Chain' R l) (hb : ∀ x, l.getLast? = some x → R x a) :
    List.Chain' R (l ++ [a]) := by
  rw [List.chain'_append]
  refine ⟨h, List.chain'_singleton a, ?_⟩
  intro x hx y hy
  simp at hy
  subst hy
  exact hb x hx

theorem setLastParams_shape (prm : ArcParams) (pts : List PathPoint) (h : pts ≠ []) :
    ∃ l q, pts = l ++ [q] ∧ setLastParams prm pts = l ++ [{q with params := some prm}] := by
  induction pts with
  | nil => exact absurd rfl h
  | cons p rest ih =>
    cases rest with
    | nil => exact ⟨[], p, by simp, by simp [setLastParams]⟩
    | cons p2 rest2 =>
      obtain ⟨l, q, h1, h2⟩ := ih (by simp)
      exact ⟨p :: l, q, by simp [h1], by simp [setLastParams, h2]⟩

theorem processLinearMove_none (s : GenState) (c : GCodeCommand)
    (hcur : s.currentSegment = none) :
    processLinearMove s c =
      ⟨calculateNewPosition s c, calculateNewExtrusion s c, s.isAbsolutePositioning,
        s.isAbsoluteExtrusion, s.segments,
        some ⟨[⟨calculateNewPosition s c, asMoveType c.type, some s.currentFeedrate,
          some (calculateNewExtrusion s c), c.lineNumber, none⟩], asMoveType c.type,
          decide (s.currentExtrusion < calculateNewExtrusion s c)⟩,
        s.currentFeedrate⟩ := by
  unfold processLinearMove
  rw [hcur]

theorem processLinearMove_append (s : GenState) (c : GCodeCommand) (seg : PathSegment)
    (hcur : s.currentSegment = some seg)
    (htag : seg.type = asMoveType c.type ∧
      seg.isExtruding = decide (s.currentExtrusion < calculateNewExtrusion s c)) :
    processLinearMove s c =
      ⟨calculateNewPosition s c, calculateNewExtrusion s c, s.isAbsolutePositioning,
        s.isAbsoluteExtrusion, s.segments,
        some ⟨seg.points ++ [⟨calculateNewPosition s c, asMoveType c.type,
          some s.currentFeedrate, some (calculateNewExtrusion s c), c.lineNumber, none⟩],
          seg.type, seg.isExtruding⟩,
        s.currentFeedrate⟩ := by
  unfold processLinearMove
  rw [hcur]
  simp only [htag.1, htag.2, and_self, if_true]

theorem processLinearMove_new (s : GenState) (c : GCodeCommand) (seg : PathSegment)
    (hcur : s.currentSegment = some seg)
    (htag : ¬(seg.type = asMoveType c.type ∧
      seg.isExtruding = decide (s.currentExtrusion < calculateNewExtrusion s c))) :
    processLinearMove s c =
      ⟨calculateNewPosition s c, calculateNewExtrusion s c, s.isAbsolutePositioning,
        s.isAbsoluteExtrusion, closeSegment s.segments (some seg),
        some ⟨[⟨calculateNewPosition s c, asMoveType c.type, some s.currentFeedrate,
          some (calculateNewExtrusion s c), c.lineNumber, none⟩], asMoveType c.type,
          decide (s.currentExtrusion < calculateNewExtrusion s c)⟩,
        s.currentFeedrate⟩ := by
  simp only [processLinearMove, hcur]
  rw [if_neg htag]

theorem genInv_linear (s : GenState) (c : GCodeCommand) (h : GenInv s) :
    GenInv (processLinearMove s c) := by
  cases hcur : s.currentSegment with
  | none =>
    have hsegs : s.segments = [] := h.curNone hcur
    rw [processLinearMove_none s c hcur]
    refine ⟨?_, ?_, ?_, ?_, ?_, ?_⟩
    · intro seg hseg
      injection hseg with hseg
      subst hseg
      simp
    · intro hno
      simp at hno
    · intro seg hseg p hp
      simp only [allSegs, hsegs, List.nil_append, List.mem_singleton] at hseg
      subst hseg
      simp only [List.mem_singleton] at hp
      subst hp
      rfl
    · simp [allSegs, hsegs]
    · intro seg hseg
      simp only [allSegs, hsegs, List.nil_append, List.mem_singleton] at hseg
      subst hseg
      simp
    · intro seg hseg
      injection hseg with hseg
      subst hseg
      exact ⟨_, rfl, rfl⟩
  | some seg =>
    have hne : seg.points ≠ [] := h.curNE seg hcur
    have hAll : allSegs s = s.segments ++ [seg] := by simp [allSegs, hcur]
    have hsegmem : seg ∈ allSegs s := by rw [hAll]; simp
    obtain ⟨q, hq1, hq2⟩ := h.lastE seg hcur
    by_cases htag : seg.type = asMoveType c.type ∧
        seg.isExtruding = decide (s.currentExtrusion < calculateNewExtrusion s c)
    · rw [processLinearMove_append s c seg hcur htag]
      refine ⟨?_, ?_, ?_, ?_, ?_, ?_⟩
      · intro sg hsg
        injection hsg with hsg
        subst hsg
        simp
      · intro hno
        simp at hno
      · intro sg hsg p hp
        simp only [allSegs] at hsg
        rcases List.mem_append.mp hsg with h1 | h1
        · exact h.types sg (by rw [hAll]; exact List.mem_append_left _ h1) p hp
        · simp only [List.mem_singleton] at h1
          subst h1
          simp only [List.mem_append, List.mem_singleton] at hp
          rcases hp with hp | hp
          · exact h.types seg hsegmem p hp
          · subst hp
            exact htag.1.symm
      · have hc := h.chain
        rw [hAll, List.chain'_append] at hc
        show List.Chain' segTagDiff (s.segments ++ [_])
        rw [List.chain'_append]
        refine ⟨hc.1, List.chain'_singleton _, ?_⟩
        intro x hx y hy
        simp only [List.head?_cons, Option.mem_def, Option.some.injEq] at hy
        subst hy
        exact hc.2.2 x hx seg (by simp)
      · intro sg hsg
        simp only [allSegs] at hsg
        rcases List.mem_append.mp hsg with h1 | h1
        · exact h.flags sg (by rw [hAll]; exact List.mem_append_left _ h1)
        · simp only [List.mem_singleton] at h1
          subst h1
          refine chain'_concat_of (h.flags seg hsegmem) ?_
          intro x hx
          rw [hq1] at hx
          injection hx with hx
          subst hx
          show extOk seg.isExtruding q _ = true
          simp only [extOk, hq2, htag.2]
          exact beq_self_eq_true _
      · intro sg hsg
        injection hsg with hsg
        subst hsg
        exact ⟨_, List.getLast?_concat _, rfl⟩
    · rw [processLinearMove_new s c seg hcur htag]
      rw [closeSegment_of_ne _ _ hne]
      refine ⟨?_, ?_, ?_, ?_, ?_, ?_⟩
      · intro sg hsg
        injection hsg with hsg
        subst hsg
        simp
      · intro hno
        simp at hno
      · intro sg hsg p hp
        simp only [allSegs] at hsg
        rcases List.mem_append.mp hsg with h1 | h1
        · exact h.types sg (by rw [hAll]; exact h1) p hp
        · simp only [List.mem_singleton] at h1
          subst h1
          simp only [List.mem_singleton] at hp
          subst hp
          rfl
      · have hc := h.chain
        rw [hAll] at hc
        show List.Chain' segTagDiff ((s.segments ++ [seg]) ++ [_])
        refine chain'_concat_of hc ?_
        intro x hx
        rw [List.getLast?_concat] at hx
        injection hx with hx
        subst hx
        show segTagDiff seg _
        unfold segTagDiff
        rcases not_and_or.mp htag with hd | hd
        · exact Or.inl hd
        · exact Or.inr hd
      · intro sg hsg
        simp only [allSegs] at hsg
        rcases List.mem_append.mp hsg with h1 | h1
        · exact h.flags sg (by rw [hAll]; exact h1)
        · simp only [List.mem_singleton] at h1
          subst h1
          simp
      · intro sg hsg
        injection hsg with hsg
        subst hsg
        exact ⟨_, rfl, rfl⟩

theorem processArcMove_degenerate (s : GenState) (c : GCodeCommand)
    (hdeg : ((arcEndPosition s c).x = s.currentPosition.x ∧
        (arcEndPosition s c).y = s.currentPosition.y) ∨ arcRadiusSq s c < 1 / 1000000) :
    processArcMove s c = s := by
  simp only [processArcMove]
  by_cases h1 : (arcEndPosition s c).x = s.currentPosition.x ∧
      (arcEndPosition s c).y = s.currentPosition.y
  · rw [if_pos h1]
  · rw [if_neg h1, if_pos (hdeg.resolve_left h1)]

theorem processArcMove_cur_none (s : GenState) (c : GCodeCommand)
    (h1 : ¬((arcEndPosition s c).x = s.currentPosition.x ∧
        (arcEndPosition s c).y = s.currentPosition.y))
    (h2 : ¬(arcRadiusSq s c < 1 / 1000000))
    (hcur : s.currentSegment = none) :
    processArcMove s c =
      ⟨arcEndPosition s c, calculateNewExtrusion s c, s.isAbsolutePositioning,
        s.isAbsoluteExtrusion, s.segments,
        some ⟨[⟨s.currentPosition, asMoveType c.type, some s.currentFeedrate,
            some s.currentExtrusion, c.lineNumber, some ⟨c.params.I, c.params.J, c.params.K, none⟩⟩,
          ⟨arcEndPosition s c, asMoveType c.type, some s.currentFeedrate,
            some (calculateNewExtrusion s c), c.lineNumber,
            some ⟨c.params.I, c.params.J, c.params.K, none⟩⟩], asMoveType c.type,
          decide (s.currentExtrusion < calculateNewExtrusion s c)⟩,
        s.currentFeedrate⟩ := by
  simp only [processArcMove]
  rw [if_neg h1, if_neg h2, hcur]

theorem processArcMove_append (s : GenState) (c : GCodeCommand) (seg : PathSegment)
    (h1 : ¬((arcEndPosition s c).x = s.currentPosition.x ∧
        (arcEndPosition s c).y = s.currentPosition.y))
    (h2 : ¬(arcRadiusSq s c < 1 / 1000000))
    (hcur : s.currentSegment = some seg) (hne : seg.points ≠ [])
    (htag : seg.type = asMoveType c.type ∧
      seg.isExtruding = decide (s.currentExtrusion < calculateNewExtrusion s c)) :
    processArcMove s c =
      ⟨arcEndPosition s c, calculateNewExtrusion s c, s.isAbsolutePositioning,
        s.isAbsoluteExtrusion, s.segments,
        some ⟨setLastParams ⟨c.params.I, c.params.J, c.params.K, none⟩ seg.points ++
          [⟨arcEndPosition s c, asMoveType c.type, some s.currentFeedrate,
            some (calculateNewExtrusion s c), c.lineNumber,
            some ⟨c.params.I, c.params.J, c.params.K, none⟩⟩],
          seg.type, seg.isExtruding⟩,
        s.currentFeedrate⟩ := by
  simp only [processArcMove]
  rw [if_neg h1, if_neg h2, hcur]
  have hemp : seg.points.isEmpty = false := by
    cases hp : seg.points
    · exact absurd hp hne
    · rfl
  simp only [htag.1, htag.2, and_self, if_true, hemp, Bool.false_eq_true, if_false]

theorem processArcMove_new (s : GenState) (c : GCodeCommand) (seg : PathSegment)
    (h1 : ¬((arcEndPosition s c).x = s.currentPosition.x ∧
        (arcEndPosition s c).y = s.currentPosition.y))
    (h2 : ¬(arcRadiusSq s c < 1 / 1000000))
    (hcur : s.currentSegment = some seg)
    (htag : ¬(seg.type = asMoveType c.type ∧
      seg.isExtruding = decide (s.currentExtrusion < calculateNewExtrusion s c))) :
    processArcMove s c =
      ⟨arcEndPosition s c, calculateNewExtrusion s c, s.isAbsolutePositioning,
        s.isAbsoluteExtrusion, closeSegment s.segments (some seg),
        some ⟨[⟨s.currentPosition, asMoveType c.type, some s.currentFeedrate,
            some s.currentExtrusion, c.lineNumber, some ⟨c.params.I, c.params.J, c.params.K, none⟩⟩,
          ⟨arcEndPosition s c, asMoveType c.type, some s.currentFeedrate,
            some (calculateNewExtrusion s c), c.lineNumber,
            some ⟨c.params.I, c.params.J, c.params.K, none⟩⟩], asMoveType c.type,
          decide (s.currentExtrusion < calculateNewExtrusion s c)⟩,
        s.currentFeedrate⟩ := by
  simp only [processArcMove]
  rw [if_neg h1, if_neg h2, hcur]
  simp only [if_neg htag]

theorem genInv_arc (s : GenState) (c : GCodeCommand) (h : GenInv s) :
    GenInv (processArcMove s c) := by
  by_cases h1 : (arcEndPosition s c).x = s.currentPosition.x ∧
      (arcEndPosition s c).y = s.currentPosition.y
  · rw [processArcMove_degenerate s c (Or.inl h1)]
    exact h
  by_cases h2 : arcRadiusSq s c < 1 / 1000000
  · rw [processArcMove_degenerate s c (Or.inr h2)]
    exact h
  cases hcur : s.currentSegment with
  | none =>
    have hsegs : s.segments = [] := h.curNone hcur
    rw [processArcMove_cur_none s c h1 h2 hcur]
    refine ⟨?_, ?_, ?_, ?_, ?_, ?_⟩
    · intro seg hseg
      injection hseg with hseg
      subst hseg
      simp
    · intro hno
      simp at hno
    · intro seg hseg p hp
      simp only [allSegs, hsegs, List.nil_append, List.mem_singleton] at hseg
      subst hseg
      simp only [List.mem_cons, List.mem_singleton, List.not_mem_nil, or_false] at hp
      rcases hp with hp | hp <;> subst hp <;> rfl
    · simp [allSegs, hsegs]
    · intro seg hseg
      simp only [allSegs, hsegs, List.nil_append, List.mem_singleton] at hseg
      subst hseg
      refine List.chain'_cons.mpr ⟨?_, List.chain'_singleton _⟩
      show extOk _ _ _ = true
      simp only [extOk]
      exact beq_self_eq_true _
    · intro seg hseg
      injection hseg with hseg
      subst hseg
      exact ⟨_, rfl, rfl⟩
  | some seg =>
    have hne : seg.points ≠ [] := h.curNE seg hcur
    have hAll : allSegs s = s.segments ++ [seg] := by simp [allSegs, hcur]
    have hsegmem : seg ∈ allSegs s := by rw [hAll]; simp
    obtain ⟨q, hq1, hq2⟩ := h.lastE seg hcur
    by_cases htag : seg.type = asMoveType c.type ∧
        seg.isExtruding = decide (s.currentExtrusion < calculateNewExtrusion s c)
    · rw [processArcMove_append s c seg h1 h2 hcur hne htag]
      obtain ⟨l, q0, hsplit, hset⟩ :=
        setLastParams_shape ⟨c.params.I, c.params.J, c.params.K, none⟩ seg.points hne
      have hq0 : q0 = q := by
        have : seg.points.getLast? = some q0 := by rw [hsplit, List.getLast?_concat]
        rw [hq1] at this
        injection this with this
        exact this.symm
      subst hq0
      rw [hset]
      refine ⟨?_, ?_, ?_, ?_, ?_, ?_⟩
      · intro sg hsg
        injection hsg with hsg
        subst hsg
        simp
      · intro hno
        simp at hno
      · intro sg hsg p hp
        simp only [allSegs] at hsg
        rcases List.mem_append.mp hsg with hm | hm
        · exact h.types sg (by rw [hAll]; exact List.mem_append_left _ hm) p hp
        · simp only [List.mem_singleton] at hm
          subst hm
          simp only [List.mem_append, List.mem_singleton] at hp
          rcases hp with (hp | hp) | hp
          · exact h.types seg hsegmem p (by rw [hsplit]; exact List.mem_append_left _ hp)
          · subst hp
            have := h.types seg hsegmem q0 (by rw [hsplit]; simp)
            exact this
          · subst hp
            exact htag.1.symm
      · have hc := h.chain
        rw [hAll, List.chain'_append] at hc
        show List.Chain' segTagDiff (s.segments ++ [_])
        rw [List.chain'_append]
        refine ⟨hc.1, List.chain'_singleton _, ?_⟩
        intro x hx y hy
        simp only [List.head?_cons, Option.mem_def, Option.some.injEq] at hy
        subst hy
        exact hc.2.2 x hx seg (by simp)
      · intro sg hsg
        simp only [allSegs] at hsg
        rcases List.mem_append.mp hsg with hm | hm
        · exact h.flags sg (by rw [hAll]; exact List.mem_append_left _ hm)
        · simp only [List.mem_singleton] at hm
          subst hm
          have hfl := h.flags seg hsegmem
          rw [hsplit, List.chain'_append] at hfl
          have hchain1 : List.Chain' (fun p pq => extOk seg.isExtruding p pq = true)
              (l ++ [{q0 with params := some ⟨c.params.I, c.params.J, c.params.K, none⟩}]) := by
            rw [List.chain'_append]
            refine ⟨hfl.1, List.chain'_singleton _, ?_⟩
            intro x hx y hy
            simp only [List.head?_cons, Option.mem_def, Option.some.injEq] at hy
            subst hy
            exact hfl.2.2 x hx q0 (by simp)
          refine chain'_concat_of hchain1 ?_
          intro x hx
          rw [List.getLast?_concat] at hx
          injection hx with hx
          subst hx
          show extOk seg.isExtruding _ _ = true
          simp only [extOk, hq2, htag.2]
          exact beq_self_eq_true _
      · intro sg hsg
        injection hsg with hsg
        subst hsg
        exact ⟨_, List.getLast?_concat _, rfl⟩
    · rw [processArcMove_new s c seg h1 h2 hcur htag]
      rw [closeSegment_of_ne _ _ hne]
      refine ⟨?_, ?_, ?_, ?_, ?_, ?_⟩
      · intro sg hsg
        injection hsg with hsg
        subst hsg
        simp
      · intro hno
        simp at hno
      · intro sg hsg p hp
        simp only [allSegs] at hsg
        rcases List.mem_append.mp hsg with hm | hm
        · exact h.types sg (by rw [hAll]; exact hm) p hp
        · simp only [List.mem_singleton] at hm
          subst hm
          simp only [List.mem_cons, List.mem_singleton, List.not_mem_nil, or_false] at hp
          rcases hp with hp | hp <;> subst hp <;> rfl
      · have hc := h.chain
        rw [hAll] at hc
        show List.Chain' segTagDiff ((s.segments ++ [seg]) ++ [_])
        refine chain'_concat_of hc ?_
        intro x hx
        rw [List.getLast?_concat] at hx
        injection hx with hx
        subst hx
        show segTagDiff seg _
        unfold segTagDiff
        rcases not_and_or.mp htag with hd | hd
        · exact Or.inl hd
        · exact Or.inr hd
      · intro sg hsg
        simp only [allSegs] at hsg
        rcases List.mem_append.mp hsg with hm | hm
        · exact h.flags sg (by rw [hAll]; exact hm)
        · simp only [List.mem_singleton] at hm
          subst hm
          refine List.chain'_cons.mpr ⟨?_, List.chain'_singleton _⟩
          show extOk _ _ _ = true
          simp only [extOk]
          exact beq_self_eq_true _
      · intro sg hsg
        injection hsg with hsg
        subst hsg
        exact ⟨_, rfl, rfl⟩

theorem mem_closeSegment (segs : List PathSegment) (cur : Option PathSegment)
    (x : PathSegment) (hx : x ∈ closeSegment segs cur) :
    x ∈ segs ++ cur.toList := by
  cases cur with
  | none => exact List.mem_append_left _ hx
  | some seg =>
    show x ∈ segs ++ [seg]
    by_cases hlen : seg.points.length > 0
    · rw [show closeSegment segs (some seg) = segs ++ [seg] from if_pos hlen] at hx
      exact hx
    · rw [show closeSegment segs (some seg) = segs from if_neg hlen] at hx
      exact List.mem_append_left _ hx

theorem allSegs_toList (s : GenState) : allSegs s = s.segments ++ s.currentSegment.toList := by
  unfold allSegs
  cases s.currentSegment <;> rfl

theorem genInv_step (s : GenState) (c : GCodeCommand) (hc : c.type ≠ .G28)
    (h : GenInv s) : GenInv (processCommand s c) := by
  unfold processCommand
  have hF : ∀ s1 : GenState, GenInv s1 → GenInv (match c.params.F with
      | some f => {s1 with currentFeedrate := f}
      | none => s1) := by
    intro s1 h1
    cases hf : c.params.F
    · exact h1
    · exact ⟨h1.curNE, h1.curNone, h1.types, h1.chain, h1.flags, h1.lastE⟩
  cases hty : c.type
  case G0 => exact hF _ (genInv_linear s c h)
  case G1 => exact hF _ (genInv_linear s c h)
  case G2 => exact hF _ (genInv_arc s c h)
  case G3 => exact hF _ (genInv_arc s c h)
  case G28 => exact absurd hty hc
  case G90 => exact hF _ ⟨h.curNE, h.curNone, h.types, h.chain, h.flags, h.lastE⟩
  case G91 => exact hF _ ⟨h.curNE, h.curNone, h.types, h.chain, h.flags, h.lastE⟩
  case G40 => exact hF _ h
  case G17 => exact hF _ h
  case G71 => exact hF _ h
  case G43 => exact hF _ h
  case M104 => exact hF _ h
  case M140 => exact hF _ h
  case M106 => exact hF _ h
  case M107 => exact hF _ h
  case M03 => exact hF _ h
  case M06 => exact hF _ h
  case T => exact hF _ h
  case OTHER => exact hF _ h

theorem genInv_fold (cmds : List GCodeCommand) (s : GenState)
    (hh : ∀ c ∈ cmds, c.type ≠ .G28) (h : GenInv s) :
    GenInv (cmds.foldl processCommand s) := by
  induction cmds generalizing s with
  | nil => exact h
  | cons c cs ih =>
    exact ih (processCommand s c) (fun d hd => hh d (List.mem_cons_of_mem _ hd))
      (genInv_step s c (hh c (List.mem_cons_self _ _)) h)

theorem genInv_initial : GenInv initialState := by
  refine ⟨?_, ?_, ?_, ?_, ?_, ?_⟩ <;> simp [initialState, allSegs]

theorem generatePath_eq_allSegs (cmds : List GCodeCommand)
    (hh : ∀ c ∈ cmds, c.type ≠ .G28) :
    generatePath cmds = allSegs (cmds.foldl processCommand initialState) := by
  unfold generatePath
  exact allSegs_eq _ (genInv_fold cmds initialState hh genInv_initial).curNE

theorem not_arcType_of_linear (c : GCodeCommand) (hmt : c.type = .G0 ∨ c.type = .G1) :
    ¬(asMoveType c.type = .G2 ∨ asMoveType c.type = .G3) := by
  rcases hmt with hmt | hmt <;> rw [hmt] <;> intro hco <;> rcases hco with hco | hco <;>
    exact absurd hco (by simp [asMoveType])

theorem arcInv_linear (s : GenState) (c : GCodeCommand) (h : ArcInv s)
    (hmt : c.type = .G0 ∨ c.type = .G1) : ArcInv (processLinearMove s c) := by
  cases hcur : s.currentSegment with
  | none =>
    rw [processLinearMove_none s c hcur]
    refine ⟨?_, ?_⟩
    · intro seg hseg
      injection hseg with hseg
      subst hseg
      simp
    · intro seg hseg hty
      simp only [allSegs] at hseg
      rcases List.mem_append.mp hseg with hm | hm
      · exact h.pairs seg (by simp only [allSegs, hcur, List.append_nil]; exact hm) hty
      · simp only [List.mem_singleton] at hm
        subst hm
        exact absurd hty (not_arcType_of_linear c hmt)
  | some seg =>
    have hne : seg.points ≠ [] := h.curNE seg hcur
    have hAll : allSegs s = s.segments ++ [seg] := by simp [allSegs, hcur]
    by_cases htag : seg.type = asMoveType c.type ∧
        seg.isExtruding = decide (s.currentExtrusion < calculateNewExtrusion s c)
    · rw [processLinearMove_append s c seg hcur htag]
      refine ⟨?_, ?_⟩
      · intro sg hsg
        injection hsg with hsg
        subst hsg
        simp
      · intro sg hsg hty
        simp only [allSegs] at hsg
        rcases List.mem_append.mp hsg with hm | hm
        · exact h.pairs sg (by rw [hAll]; exact List.mem_append_left _ hm) hty
        · simp only [List.mem_singleton] at hm
          subst hm
          have harc : asMoveType c.type = .G2 ∨ asMoveType c.type = .G3 := by
            rw [← htag.1]
            exact hty
          exact absurd harc (not_arcType_of_linear c hmt)
    · rw [processLinearMove_new s c seg hcur htag]
      refine ⟨?_, ?_⟩
      · intro sg hsg
        injection hsg with hsg
        subst hsg
        simp
      · intro sg hsg hty
        simp only [allSegs] at hsg
        rcases List.mem_append.mp hsg with hm | hm
        · have := mem_closeSegment s.segments (some seg) sg hm
          exact h.pairs sg (by rw [hAll]; exact this) hty
        · simp only [List.mem_singleton] at hm
          subst hm
          exact absurd hty (not_arcType_of_linear c hmt)

theorem lastTwoParamsShared_two (p q : PathPoint) (a : ArcParams)
    (hp : p.params = some a) (hq : q.params = some a) :
    lastTwoParamsShared [p, q] :=
  ⟨[], p, q, a, by simp, hp, hq⟩

theorem arcInv_arc (s : GenState) (c : GCodeCommand) (h : ArcInv s) :
    ArcInv (processArcMove s c) := by
  by_cases h1 : (arcEndPosition s c).x = s.currentPosition.x ∧
      (arcEndPosition s c).y = s.currentPosition.y
  · rw [processArcMove_degenerate s c (Or.inl h1)]
    exact h
  by_cases h2 : arcRadiusSq s c < 1 / 1000000
  · rw [processArcMove_degenerate s c (Or.inr h2)]
    exact h
  cases hcur : s.currentSegment with
  | none =>
    rw [processArcMove_cur_none s c h1 h2 hcur]
    refine ⟨?_, ?_⟩
    · intro seg hseg
      injection hseg with hseg
      subst hseg
      simp
    · intro sg hsg hty
      simp only [allSegs] at hsg
      rcases List.mem_append.mp hsg with hm | hm
      · exact h.pairs sg (by simp only [allSegs, hcur, List.append_nil]; exact hm) hty
      · simp only [List.mem_singleton] at hm
        subst hm
        exact lastTwoParamsShared_two _ _ _ rfl rfl
  | some seg =>
    have hne : seg.points ≠ [] := h.curNE seg hcur
    have hAll : allSegs s = s.segments ++ [seg] := by simp [allSegs, hcur]
    by_cases htag : seg.type = asMoveType c.type ∧
        seg.isExtruding = decide (s.currentExtrusion < calculateNewExtrusion s c)
    · rw [processArcMove_append s c seg h1 h2 hcur hne htag]
      obtain ⟨l, q0, hsplit, hset⟩ :=
        setLastParams_shape ⟨c.params.I, c.params.J, c.params.K, none⟩ seg.points hne
      rw [hset]
      refine ⟨?_, ?_⟩
      · intro sg hsg
        injection hsg with hsg
        subst hsg
        simp
      · intro sg hsg hty
        simp only [allSegs] at hsg
        rcases List.mem_append.mp hsg with hm | hm
        · exact h.pairs sg (by rw [hAll]; exact List.mem_append_left _ hm) hty
        · simp only [List.mem_singleton] at hm
          subst hm
          exact ⟨l,
            ⟨q0.position, q0.type, q0.feedrate, q0.extrusion, q0.lineNumber,
              some ⟨c.params.I, c.params.J, c.params.K, none⟩⟩,
            ⟨arcEndPosition s c, asMoveType c.type, some s.currentFeedrate,
              some (calculateNewExtrusion s c), c.lineNumber,
              some ⟨c.params.I, c.params.J, c.params.K, none⟩⟩,
            ⟨c.params.I, c.params.J, c.params.K, none⟩,
            by simp, rfl, rfl⟩
    · rw [processArcMove_new s c seg h1 h2 hcur htag]
      refine ⟨?_, ?_⟩
      · intro sg hsg
        injection hsg with hsg
        subst hsg
        simp
      · intro sg hsg hty
        simp only [allSegs] at hsg
        rcases List.mem_append.mp hsg with hm | hm
        · have := mem_closeSegment s.segments (some seg) sg hm
          exact h.pairs sg (by rw [hAll]; exact this) hty
        · simp only [List.mem_singleton] at hm
          subst hm
          exact lastTwoParamsShared_two _ _ _ rfl rfl

theorem processHomeMove_eq (s : GenState) (c : GCodeCommand) :
    processHomeMove s c =
      ⟨⟨if c.params.X.isSome then 0 else 0, if c.params.Y.isSome then 0 else 0,
          if c.params.Z.isSome then 0 else 0⟩,
        s.currentExtrusion, s.isAbsolutePositioning, s.isAbsoluteExtrusion,
        closeSegment s.segments s.currentSegment,
        some ⟨[⟨⟨if c.params.X.isSome then 0 else 0, if c.params.Y.isSome then 0 else 0,
            if c.params.Z.isSome then 0 else 0⟩, .G0, some s.currentFeedrate, none,
            c.lineNumber, none⟩], .G0, false⟩,
        s.currentFeedrate⟩ := rfl

theorem arcInv_home (s : GenState) (c : GCodeCommand) (h : ArcInv s) :
    ArcInv (processHomeMove s c) := by
  rw [processHomeMove_eq]
  refine ⟨?_, ?_⟩
  · intro seg hseg
    injection hseg with hseg
    subst hseg
    simp
  · intro sg hsg hty
    simp only [allSegs] at hsg
    rcases List.mem_append.mp hsg with hm | hm
    · have := mem_closeSegment s.segments s.currentSegment sg hm
      rw [← allSegs_toList] at this
      exact h.pairs sg this hty
    · simp only [List.mem_singleton] at hm
      subst hm
      rcases hty with hty | hty <;> cases hty

theorem arcInv_step (s : GenState) (c : GCodeCommand) (h : ArcInv s) :
    ArcInv (processCommand s c) := by
  unfold processCommand
  have hF : ∀ s1 : GenState, ArcInv s1 → ArcInv (match c.params.F with
      | some f => {s1 with currentFeedrate := f}
      | none => s1) := by
    intro s1 h1
    cases hf : c.params.F
    · exact h1
    · exact ⟨h1.curNE, h1.pairs⟩
  cases hty : c.type
  case G0 => exact hF _ (arcInv_linear s c h (Or.inl hty))
  case G1 => exact hF _ (arcInv_linear s c h (Or.inr hty))
  case G2 => exact hF _ (arcInv_arc s c h)
  case G3 => exact hF _ (arcInv_arc s c h)
  case G28 => exact hF _ (arcInv_home s c h)
  case G90 => exact hF _ ⟨h.curNE, h.pairs⟩
  case G91 => exact hF _ ⟨h.curNE, h.pairs⟩
  case G40 => exact hF _ h
  case G17 => exact hF _ h
  case G71 => exact hF _ h
  case G43 => exact hF _ h
  case M104 => exact hF _ h
  case M140 => exact hF _ h
  case M106 => exact hF _ h
  case M107 => exact hF _ h
  case M03 => exact hF _ h
  case M06 => exact hF _ h
  case T => exact hF _ h
  case OTHER => exact hF _ h

theorem arcInv_fold (cmds : List GCodeCommand) (s : GenState) (h : ArcInv s) :
    ArcInv (cmds.foldl processCommand s) := by
  induction cmds generalizing s with
  | nil => exact h
  | cons c cs ih => exact ih (processCommand s c) (arcInv_step s c h)

theorem arcInv_initial : ArcInv initialState := by
  refine ⟨?_, ?_⟩ <;> simp [initialState, allSegs]

/-! ## Claim theorems -/

/-- C1 (counterexample): the claim "for any two adjacent PathSegments in the
output, at least one of {type, extruding-flag} differs" is false as stated: a
rapid move followed by a bare home yields two adjacent segments that are both
non-extruding `G0` segments, because a home unconditionally starts a new
segment. -/
theorem c1_segment_invariant_cex :
    ¬ List.Chain' segTagDiff (generatePath [cmdG0X10, cmdHomeBare]) := by
  have hgen : generatePath [cmdG0X10, cmdHomeBare] =
      [⟨[⟨⟨10, 0, 0⟩, .G0, some 0, some 0, 1, none⟩], .G0, false⟩,
       ⟨[⟨⟨0, 0, 0⟩, .G0, some 0, none, 2, none⟩], .G0, false⟩] := by
    decide
  rw [hgen]
  intro hch
  rcases (List.chain'_cons.mp hch).1 with hd | hd <;> exact hd rfl

/-- C1 (amended): for every command list containing no home instruction, in
the segment list returned by `generatePath` every point's move type equals
its segment's type, consecutive points of a segment satisfy the
extruding-flag consistency (the strict-increase test between their extrusion
values equals the segment's flag), and any two adjacent segments differ in
type or extruding flag.  (A home instruction unconditionally opens a fresh
rapid non-extruding segment, which may repeat the previous segment's tag.) -/
theorem c1_segment_invariant_amended (cmds : List GCodeCommand)
    (hh : ∀ c ∈ cmds, c.type ≠ .G28) :
    (∀ seg ∈ generatePath cmds, ∀ p ∈ seg.points, p.type = seg.type) ∧
    (∀ seg ∈ generatePath cmds,
      List.Chain' (fun p q => extOk seg.isExtruding p q = true) seg.points) ∧
    List.Chain' segTagDiff (generatePath cmds) := by
  have hinv := genInv_fold cmds initialState hh genInv_initial
  rw [generatePath_eq_allSegs cmds hh]
  exact ⟨hinv.types, hinv.flags, hinv.chain⟩

theorem c1_segment_invariant_amended_witness :
    (∀ c ∈ [cmdG1X10E5], c.type ≠ CmdType.G28) ∧
    ((∀ seg ∈ generatePath [cmdG1X10E5], ∀ p ∈ seg.points, p.type = seg.type) ∧
    (∀ seg ∈ generatePath [cmdG1X10E5],
      List.Chain' (fun p q => extOk seg.isExtruding p q = true) seg.points) ∧
    List.Chain' segTagDiff (generatePath [cmdG1X10E5])) :=
  ⟨by decide, c1_segment_invariant_amended [cmdG1X10E5] (by decide)⟩

/-- C2 (code evaluated at the failing input): the claim says a home resets
only the explicitly named axes; the code initializes the home position to the
origin and then assigns `0` to the named axes, so it always zeroes all three.
From position `(5, 6, 7)`, the home `G28 X0` emits its point at `(0, 0, 0)`
(the claim expects `(0, 6, 7)`), contradicting the code's own comment that
only the specified axes move. -/
theorem c2_home_zeroes_all_axes :
    (generatePath [cmdG1X5Y6Z7, cmdHomeX]).map (fun seg => seg.points.map (fun p => p.position))
      = [[⟨5, 6, 7⟩], [⟨0, 0, 0⟩]] := by
  decide

/-- C3 (counterexample): the claim that arc PathPoints occur in
leading+trailing pairs with identical arc parameters fails for two chained
arcs in one segment: the second arc overwrites the shared middle point's
parameters, leaving three arc points whose parameter list is
`[{I:5}, {I:-3}, {I:-3}]` — not a pairing, and arc 1's leading and trailing
points disagree. -/
theorem c3_arc_pairing_cex :
    (generatePath [cmdArcA, cmdArcB]).map
      (fun s => pairedParamsOk (s.points.map (fun p => p.params))) = [false] := by
  simp only [generatePath, List.foldl, processCommand, cmdArcA, cmdArcB, initialState,
    processArcMove, arcEndPosition, arcRadiusSq, calculateNewExtrusion, asMoveType,
    closeSegment, setLastParams]
  norm_num [pairedParamsOk]

/-- C3 (amended): in every segment list returned by `generatePath`, every
arc-typed (`G2`/`G3`) segment has at least two points and its final two
points carry one identical, present arc-parameter set (each arc pushes a
trailing point and makes the preceding point carry the same parameters; a
later chained arc may overwrite an earlier arc's trailing parameters, so the
guarantee survives only for a segment's last two points). -/
theorem c3_arc_pairing_amended (cmds : List GCodeCommand) (seg : PathSegment)
    (hmem : seg ∈ generatePath cmds) (hty : seg.type = .G2 ∨ seg.type = .G3) :
    2 ≤ seg.points.length ∧ lastTwoParamsShared seg.points := by
  have hinv := arcInv_fold cmds initialState arcInv_initial
  have hmem' : seg ∈ allSegs (cmds.foldl processCommand initialState) := by
    unfold generatePath at hmem
    rw [allSegs_toList]
    exact mem_closeSegment _ _ _ hmem
  have hp := hinv.pairs seg hmem' hty
  refine ⟨?_, hp⟩
  obtain ⟨l, p, q, a, he, _, _⟩ := hp
  rw [he]
  simp

theorem c3_arc_pairing_amended_witness :
    arcWitnessSeg ∈ generatePath [cmdArcA] ∧
    (arcWitnessSeg.type = MoveType.G2 ∨ arcWitnessSeg.type = MoveType.G3) ∧
    (2 ≤ arcWitnessSeg.points.length ∧ lastTwoParamsShared arcWitnessSeg.points) := by
  have hgen : generatePath [cmdArcA] = [arcWitnessSeg] := by
    simp only [generatePath, List.foldl, processCommand, cmdArcA, initialState, processArcMove,
      arcEndPosition, arcRadiusSq, calculateNewExtrusion, asMoveType, closeSegment, arcWitnessSeg]
    norm_num
  have hm : arcWitnessSeg ∈ generatePath [cmdArcA] := by
    rw [hgen]
    exact List.mem_singleton.mpr rfl
  exact ⟨hm, Or.inl rfl, c3_arc_pairing_amended [cmdArcA] arcWitnessSeg hm (Or.inl rfl)⟩

/-- C4 (code evaluated at the failing input): the claim says a line carrying
an explicit `G0` keeps the rapid-move type even when coordinates appear.  In
the code the feed-move default tests `!params['G']`, and JavaScript treats
the stored code `0` as falsy, so `"G0 X10"` is re-typed to `G1` (and
`params.G` overwritten to `1`) — contradicting the code's own comment that
the default applies only when no `G` instruction was specified. -/
theorem c4_rapid_code_overridden :
    (parseCommandChars ("G0 X10".data) 1).map (fun c => (c.type, c.params.G))
      = some (CmdType.G1, some (some 1)) := by
  decide

/-- C5 (counterexample): the claim that a home instruction does not write the
feedrate is false: the feed-parameter update of `processCommand` applies to
home instructions too, so `G28 F100` changes the interpreter's feedrate from
`0` to `100`. -/
theorem c5_home_feedrate_cex :
    (processCommand initialState cmdHomeF).currentFeedrate ≠ initialState.currentFeedrate := by
  decide

/-- C5 (amended): a home instruction reads the feedrate into its emitted
point — the single point of the new rapid segment carries the feedrate from
before the instruction — and, like every instruction, an `F` parameter on
the home line updates the stored feedrate after the point is emitted, while
a home without `F` leaves the feedrate unchanged. -/
theorem c5_home_feedrate_amended (s : GenState) (c : GCodeCommand) (h : c.type = .G28) :
    (∃ pt : PathPoint, (processCommand s c).currentSegment = some ⟨[pt], .G0, false⟩ ∧
      pt.feedrate = some s.currentFeedrate) ∧
    (processCommand s c).currentFeedrate =
      (match c.params.F with | some f => f | none => s.currentFeedrate) := by
  unfold processCommand
  simp only [h]
  rw [processHomeMove_eq]
  cases hf : c.params.F
  · exact ⟨⟨_, rfl, rfl⟩, rfl⟩
  · exact ⟨⟨_, rfl, rfl⟩, rfl⟩

theorem c5_home_feedrate_amended_witness :
    cmdHomeF.type = CmdType.G28 ∧
    ((∃ pt : PathPoint, (processCommand initialState cmdHomeF).currentSegment =
        some ⟨[pt], .G0, false⟩ ∧ pt.feedrate = some initialState.currentFeedrate) ∧
    (processCommand initialState cmdHomeF).currentFeedrate =
      (match cmdHomeF.params.F with | some f => f | none => initialState.currentFeedrate)) :=
  ⟨rfl, c5_home_feedrate_amended initialState cmdHomeF rfl⟩

/-- C6: a degenerate arc is atomic.  For every interpreter state and every
`G2`/`G3` instruction whose resolved end equals the start in both in-plane
axes, or whose start-to-center distance is below `0.001`, processing emits
no point and leaves position, extrusion amount, positioning mode, the open
segment and the output segment list unchanged. -/
theorem c6_degenerate_arc_atomic (s : GenState) (c : GCodeCommand)
    (ht : c.type = .G2 ∨ c.type = .G3)
    (hdeg : ((arcEndPosition s c).x = s.currentPosition.x ∧
        (arcEndPosition s c).y = s.currentPosition.y) ∨ arcRadiusSq s c < 1 / 1000000) :
    (processCommand s c).currentPosition = s.currentPosition ∧
    (processCommand s c).currentExtrusion = s.currentExtrusion ∧
    (processCommand s c).isAbsolutePositioning = s.isAbsolutePositioning ∧
    (processCommand s c).currentSegment = s.currentSegment ∧
    (processCommand s c).segments = s.segments := by
  have harc : processArcMove s c = s := processArcMove_degenerate s c hdeg
  have hpc : processCommand s c = (match c.params.F with
      | some f => {s with currentFeedrate := f}
      | none => s) := by
    unfold processCommand
    rcases ht with ht | ht <;> simp only [ht, harc]
  rw [hpc]
  cases hf : c.params.F
  · exact ⟨rfl, rfl, rfl, rfl, rfl⟩
  · exact ⟨rfl, rfl, rfl, rfl, rfl⟩

theorem c6_degenerate_arc_atomic_witness :
    (cmdArcDegen.type = CmdType.G2 ∨ cmdArcDegen.type = CmdType.G3) ∧
    (((arcEndPosition initialState cmdArcDegen).x = initialState.currentPosition.x ∧
        (arcEndPosition initialState cmdArcDegen).y = initialState.currentPosition.y) ∨
      arcRadiusSq initialState cmdArcDegen < 1 / 1000000) ∧
    ((processCommand initialState cmdArcDegen).currentPosition = initialState.currentPosition ∧
    (processCommand initialState cmdArcDegen).currentExtrusion = initialState.currentExtrusion ∧
    (processCommand initialState cmdArcDegen).isAbsolutePositioning =
      initialState.isAbsolutePositioning ∧
    (processCommand initialState cmdArcDegen).currentSegment = initialState.currentSegment ∧
    (processCommand initialState cmdArcDegen).segments = initialState.segments) :=
  ⟨Or.inl rfl, Or.inl ⟨rfl, rfl⟩,
    c6_degenerate_arc_atomic initialState cmdArcDegen (Or.inl rfl) (Or.inl ⟨rfl, rfl⟩)⟩

/-- C10 (counterexample): `parseCommand` does not return the same instruction
for a line and its uppercased form, because the returned instruction keeps
the original text in its `raw` field: parsing `"g1"` and `"G1"` yields
instructions differing in `raw`. -/
theorem c10_case_handling_cex :
    parseCommandChars ("g1".data) 1 ≠ parseCommandChars ("G1".data) 1 := by
  decide

/-- C10 (amended): parsing is case-insensitive up to the `raw` field — for
every line, `parseCommand` returns the same type, line number, line index
and parameters as for the uppercased line (every token is uppercased before
processing), while `raw` keeps the original text; validation accepts only
uppercase letters, so the lowercase line `"g1 x10"` is rejected by
`validateGCode` yet parsed as a fully recognized feed-move (`G1`)
instruction. -/
theorem c10_case_handling_amended :
    (∀ (l : List Char) (n : ℕ),
      (parseCommandChars (l.map jsToUpper) n).map dropRawFields
        = (parseCommandChars l n).map dropRawFields) ∧
    (validateGCodeChars ("g1 x10".data)).1 = false ∧
    (parseCommandChars ("g1 x10".data) 1).map (fun c => c.type) = some CmdType.G1 :=
  ⟨parseCommandChars_map_upper, by decide, by decide⟩

/-! ## Statistics lemmas for `parseGCode` -/

theorem pgLine_none (acc : PGAcc) (l : List Char) (i : ℕ)
    (hp : parseCommandChars l (i + 1) = none) : pgLine acc l i = acc := by
  unfold pgLine
  rw [hp]

theorem pgLine_some (acc : PGAcc) (l : List Char) (i : ℕ) (c : GCodeCommand)
    (hp : parseCommandChars l (i + 1) = some c) :
    pgLine acc l i =
      ⟨acc.commands ++ [c], acc.validCommands + 1,
        (match c.params.X with | some x => max acc.maxX ↑x | none => acc.maxX),
        (match c.params.Y with | some y => max acc.maxY ↑y | none => acc.maxY),
        (match c.params.Z with | some z => max acc.maxZ ↑z | none => acc.maxZ),
        (match c.params.X with | some x => min acc.minX ↑x | none => acc.minX),
        (match c.params.Y with | some y => min acc.minY ↑y | none => acc.minY),
        (match c.params.Z with | some z => min acc.minZ ↑z | none => acc.minZ)⟩ := by
  unfold pgLine
  rw [hp]

theorem pgRun_cons (acc : PGAcc) (i : ℕ) (l : List Char) (ls : List (List Char)) :
    pgRun acc i (l :: ls) = pgRun (pgLine acc l i) (i + 1) ls := rfl

theorem parsedLines_cons (l : List Char) (ls : List (List Char)) (i : ℕ) :
    parsedLines (l :: ls) i =
      (match parseCommandChars l (i + 1) with
        | some c => c :: parsedLines ls (i + 1)
        | none => parsedLines ls (i + 1)) := rfl

theorem pgRun_spec (ls : List (List Char)) (i : ℕ) (acc : PGAcc) :
    (pgRun acc i ls).commands = acc.commands ++ parsedLines ls i ∧
    (pgRun acc i ls).maxX =
      max acc.maxX ((parsedLines ls i).filterMap (fun c => c.params.X)).maximum ∧
    (pgRun acc i ls).maxY =
      max acc.maxY ((parsedLines ls i).filterMap (fun c => c.params.Y)).maximum ∧
    (pgRun acc i ls).maxZ =
      max acc.maxZ ((parsedLines ls i).filterMap (fun c => c.params.Z)).maximum ∧
    (pgRun acc i ls).minX =
      min acc.minX ((parsedLines ls i).filterMap (fun c => c.params.X)).minimum ∧
    (pgRun acc i ls).minY =
      min acc.minY ((parsedLines ls i).filterMap (fun c => c.params.Y)).minimum ∧
    (pgRun acc i ls).minZ =
      min acc.minZ ((parsedLines ls i).filterMap (fun c => c.params.Z)).minimum := by
  induction ls generalizing i acc with
  | nil =>
    simp [pgRun, parsedLines]
  | cons l ls ih =>
    rw [pgRun_cons, parsedLines_cons]
    cases hp : parseCommandChars l (i + 1) with
    | none =>
      rw [pgLine_none acc l i hp]
      exact ih (i + 1) acc
    | some c =>
      rw [pgLine_some acc l i c hp]
      obtain ⟨ih1, ih2, ih3, ih4, ih5, ih6, ih7⟩ := ih (i + 1)
        ⟨acc.commands ++ [c], acc.validCommands + 1,
          (match c.params.X with | some x => max acc.maxX ↑x | none => acc.maxX),
          (match c.params.Y with | some y => max acc.maxY ↑y | none => acc.maxY),
          (match c.params.Z with | some z => max acc.maxZ ↑z | none => acc.maxZ),
          (match c.params.X with | some x => min acc.minX ↑x | none => acc.minX),
          (match c.params.Y with | some y => min acc.minY ↑y | none => acc.minY),
          (match c.params.Z with | some z => min acc.minZ ↑z | none => acc.minZ)⟩
      refine ⟨?_, ?_, ?_, ?_, ?_, ?_, ?_⟩
      · rw [ih1]
        simp
      · rw [ih2]
        cases hx : c.params.X <;>
          simp [List.filterMap_cons, hx, List.maximum_cons, max_assoc]
      · rw [ih3]
        cases hy : c.params.Y <;>
          simp [List.filterMap_cons, hy, List.maximum_cons, max_assoc]
      · rw [ih4]
        cases hz : c.params.Z <;>
          simp [List.filterMap_cons, hz, List.maximum_cons, max_assoc]
      · rw [ih5]
        cases hx : c.params.X <;>
          simp [List.filterMap_cons, hx, List.minimum_cons, min_assoc]
      · rw [ih6]
        cases hy : c.params.Y <;>
          simp [List.filterMap_cons, hy, List.minimum_cons, min_assoc]
      · rw [ih7]
        cases hz : c.params.Z <;>
          simp [List.filterMap_cons, hz, List.minimum_cons, min_assoc]

/-- C9: for every document, the stats returned by `parseGCode` hold, per
axis, the minimum and maximum of that coordinate's parameter value over all
parsed instructions in which the coordinate appears, and each bound is `0`
when the axis never appears (the `±Infinity` sentinel survives the run and
is replaced by `0`); in particular a document with zero coordinate-bearing
instructions has all six bounds equal to `0` (the `maximum`/`minimum` of an
empty value list is the sentinel, so `unbot' 0`/`untop' 0` yield `0`). -/
theorem c9_parse_stats_bounds (content : List Char) :
    (parseGCodeChars content).stats.maxX =
      (((parseGCodeChars content).commands.filterMap (fun c => c.params.X)).maximum).unbot' 0 ∧
    (parseGCodeChars content).stats.maxY =
      (((parseGCodeChars content).commands.filterMap (fun c => c.params.Y)).maximum).unbot' 0 ∧
    (parseGCodeChars content).stats.maxZ =
      (((parseGCodeChars content).commands.filterMap (fun c => c.params.Z)).maximum).unbot' 0 ∧
    (parseGCodeChars content).stats.minX =
      (((parseGCodeChars content).commands.filterMap (fun c => c.params.X)).minimum).untop' 0 ∧
    (parseGCodeChars content).stats.minY =
      (((parseGCodeChars content).commands.filterMap (fun c => c.params.Y)).minimum).untop' 0 ∧
    (parseGCodeChars content).stats.minZ =
      (((parseGCodeChars content).commands.filterMap (fun c => c.params.Z)).minimum).untop' 0 := by
  obtain ⟨h1, h2, h3, h4, h5, h6, h7⟩ := pgRun_spec (splitLinesJs content) 0 {}
  have hcmd : (parseGCodeChars content).commands = parsedLines (splitLinesJs content) 0 := by
    show (pgRun {} 0 (splitLinesJs content)).commands = _
    rw [h1]
    rfl
  rw [hcmd]
  refine ⟨?_, ?_, ?_, ?_, ?_, ?_⟩
  · show (pgRun {} 0 (splitLinesJs content)).maxX.unbot' 0 = _
    rw [h2]
    exact congrArg (WithBot.unbot' 0) (max_eq_right bot_le)
  · show (pgRun {} 0 (splitLinesJs content)).maxY.unbot' 0 = _
    rw [h3]
    exact congrArg (WithBot.unbot' 0) (max_eq_right bot_le)
  · show (pgRun {} 0 (splitLinesJs content)).maxZ.unbot' 0 = _
    rw [h4]
    exact congrArg (WithBot.unbot' 0) (max_eq_right bot_le)
  · show (pgRun {} 0 (splitLinesJs content)).minX.untop' 0 = _
    rw [h5]
    exact congrArg (WithTop.untop' 0) (min_eq_right le_top)
  · show (pgRun {} 0 (splitLinesJs content)).minY.untop' 0 = _
    rw [h6]
    exact congrArg (WithTop.untop' 0) (min_eq_right le_top)
  · show (pgRun {} 0 (splitLinesJs content)).minZ.untop' 0 = _
    rw [h7]
    exact congrArg (WithTop.untop' 0) (min_eq_right le_top)

/-! ## Synthesizer lemmas -/

theorem dist3_nonneg (a b : RV3) : 0 ≤ dist3 a b := Real.sqrt_nonneg _

theorem dist2_nonneg (a b : ℝ × ℝ) : 0 ≤ dist2 a b := Real.sqrt_nonneg _

theorem chordSum_nonneg : ∀ l : List (ℝ × ℝ), 0 ≤ chordSum l
  | [] => le_refl 0
  | [_] => le_refl 0
  | a :: b :: r => add_nonneg (dist2_nonneg a b) (chordSum_nonneg (b :: r))

theorem lineFrames_shape (sps t0 : ℝ) (sIdx pIdx : ℕ) (p1 p2 : RV3) :
    lineFrames sps t0 sIdx pIdx p1 p2 =
      (List.range (max 10 (Int.toNat ⌈dist3 p1 p2 * 2⌉) + 1)).map fun i =>
        { position := ⟨p1.x + (p2.x - p1.x) *
              ((i : ℝ) / (max 10 (Int.toNat ⌈dist3 p1 p2 * 2⌉) : ℕ)),
            p1.y + (p2.y - p1.y) * ((i : ℝ) / (max 10 (Int.toNat ⌈dist3 p1 p2 * 2⌉) : ℕ)),
            p1.z + (p2.z - p1.z) * ((i : ℝ) / (max 10 (Int.toNat ⌈dist3 p1 p2 * 2⌉) : ℕ))⟩
          segmentIndex := sIdx
          pointIndex := pIdx
          time := t0 + dist3 p1 p2 / sps / (max 10 (Int.toNat ⌈dist3 p1 p2 * 2⌉) : ℕ) *
            (i : ℝ) } := by
  unfold lineFrames
  rfl

theorem lineFrames_time_ge (sps t0 : ℝ) (sIdx pIdx : ℕ) (p1 p2 : RV3) (hs : 0 < sps) :
    ∀ fr ∈ lineFrames sps t0 sIdx pIdx p1 p2, t0 ≤ fr.time := by
  intro fr hfr
  rw [lineFrames_shape] at hfr
  simp only [List.mem_map, List.mem_range] at hfr
  obtain ⟨i, hi, rfl⟩ := hfr
  have hft : 0 ≤ dist3 p1 p2 / sps / (max 10 (Int.toNat ⌈dist3 p1 p2 * 2⌉) : ℕ) :=
    div_nonneg (div_nonneg (dist3_nonneg p1 p2) hs.le) (Nat.cast_nonneg _)
  have := mul_nonneg hft (Nat.cast_nonneg (α := ℝ) i)
  show t0 ≤ t0 + _
  linarith

theorem lineFrames_exists_t0 (sps t0 : ℝ) (sIdx pIdx : ℕ) (p1 p2 : RV3) :
    ∃ fr ∈ lineFrames sps t0 sIdx pIdx p1 p2, fr.time = t0 := by
  rw [lineFrames_shape]
  refine ⟨_, List.mem_map_of_mem _ (List.mem_range.mpr (Nat.succ_pos _)), ?_⟩
  show t0 + _ * ((0 : ℕ) : ℝ) = t0
  simp

theorem lineFrames_ne_nil (sps t0 : ℝ) (sIdx pIdx : ℕ) (p1 p2 : RV3) :
    lineFrames sps t0 sIdx pIdx p1 p2 ≠ [] := by
  rw [lineFrames_shape]
  simp

theorem arcFrames_len_nonneg (ep : EllipseSpec → ℝ → ℝ × ℝ) (sps t0 : ℝ) (sIdx pIdx : ℕ)
    (cw : Bool) (p1 p2 : RV3) (prm : Option ArcParamsR) :
    0 ≤ (arcFrames ep sps t0 sIdx pIdx cw p1 p2 prm).2 :=
  chordSum_nonneg _

theorem arcFrames_shape (ep : EllipseSpec → ℝ → ℝ × ℝ) (sps t0 : ℝ) (sIdx pIdx : ℕ)
    (cw : Bool) (p1 p2 : RV3) (prm : Option ArcParamsR) :
    (arcFrames ep sps t0 sIdx pIdx cw p1 p2 prm).1 =
      (List.range (max 50 (Int.toNat ⌈(arcFrames ep sps t0 sIdx pIdx cw p1 p2 prm).2 * 2⌉) + 1)).map
        fun i =>
          { position := ⟨(ep (arcPairData cw p1 p2 prm).2
                ((i : ℝ) / (max 50 (Int.toNat ⌈(arcFrames ep sps t0 sIdx pIdx cw p1 p2 prm).2 * 2⌉) : ℕ))).1,
              (ep (arcPairData cw p1 p2 prm).2
                ((i : ℝ) / (max 50 (Int.toNat ⌈(arcFrames ep sps t0 sIdx pIdx cw p1 p2 prm).2 * 2⌉) : ℕ))).2,
              p1.z + (p2.z - p1.z) *
                ((i : ℝ) / (max 50 (Int.toNat ⌈(arcFrames ep sps t0 sIdx pIdx cw p1 p2 prm).2 * 2⌉) : ℕ))⟩
            segmentIndex := sIdx
            pointIndex := pIdx
            time := t0 + (arcFrames ep sps t0 sIdx pIdx cw p1 p2 prm).2 / sps /
              (max 50 (Int.toNat ⌈(arcFrames ep sps t0 sIdx pIdx cw p1 p2 prm).2 * 2⌉) : ℕ) *
              (i : ℝ) } := by
  unfold arcFrames
  rfl

theorem arcFrames_time_ge (ep : EllipseSpec → ℝ → ℝ × ℝ) (sps t0 : ℝ) (sIdx pIdx : ℕ)
    (cw : Bool) (p1 p2 : RV3) (prm : Option ArcParamsR) (hs : 0 < sps) :
    ∀ fr ∈ (arcFrames ep sps t0 sIdx pIdx cw p1 p2 prm).1, t0 ≤ fr.time := by
  intro fr hfr
  rw [arcFrames_shape] at hfr
  simp only [List.mem_map, List.mem_range] at hfr
  obtain ⟨i, hi, rfl⟩ := hfr
  have hft : 0 ≤ (arcFrames ep sps t0 sIdx pIdx cw p1 p2 prm).2 / sps /
      (max 50 (Int.toNat ⌈(arcFrames ep sps t0 sIdx pIdx cw p1 p2 prm).2 * 2⌉) : ℕ) :=
    div_nonneg (div_nonneg (arcFrames_len_nonneg ep sps t0 sIdx pIdx cw p1 p2 prm) hs.le)
      (Nat.cast_nonneg _)
  have := mul_nonneg hft (Nat.cast_nonneg (α := ℝ) i)
  show t0 ≤ t0 + _
  linarith

theorem arcFrames_exists_t0 (ep : EllipseSpec → ℝ → ℝ × ℝ) (sps t0 : ℝ) (sIdx pIdx : ℕ)
    (cw : Bool) (p1 p2 : RV3) (prm : Option ArcParamsR) :
    ∃ fr ∈ (arcFrames ep sps t0 sIdx pIdx cw p1 p2 prm).1, fr.time = t0 := by
  rw [arcFrames_shape]
  refine ⟨_, List.mem_map_of_mem _ (List.mem_range.mpr (Nat.succ_pos _)), ?_⟩
  show t0 + _ * ((0 : ℕ) : ℝ) = t0
  simp

theorem arcFrames_ne_nil (ep : EllipseSpec → ℝ → ℝ × ℝ) (sps t0 : ℝ) (sIdx pIdx : ℕ)
    (cw : Bool) (p1 p2 : RV3) (prm : Option ArcParamsR) :
    (arcFrames ep sps t0 sIdx pIdx cw p1 p2 prm).1 ≠ [] := by
  rw [arcFrames_shape]
  simp

theorem processPair_ok (ep : EllipseSpec → ℝ → ℝ × ℝ) (sps : ℝ) (sIdx pIdx : ℕ)
    (ty : MoveType) (p1 p2 : RV3) (prm : Option ArcParamsR) (st : SynthState)
    (hs : 0 < sps) (h1 : 0 ≤ st.currentTime) (h2 : ∀ f ∈ st.frames, 0 ≤ f.time)
    (h3 : st.frames = [] → st.currentTime = 0)
    (h4 : st.frames ≠ [] → ∃ f ∈ st.frames, f.time = 0) :
    0 ≤ (processPair ep sps sIdx pIdx ty p1 p2 prm st).currentTime ∧
    (∀ f ∈ (processPair ep sps sIdx pIdx ty p1 p2 prm st).frames, 0 ≤ f.time) ∧
    ((processPair ep sps sIdx pIdx ty p1 p2 prm st).frames = [] →
      (processPair ep sps sIdx pIdx ty p1 p2 prm st).currentTime = 0) ∧
    ((processPair ep sps sIdx pIdx ty p1 p2 prm st).frames ≠ [] →
      ∃ f ∈ (processPair ep sps sIdx pIdx ty p1 p2 prm st).frames, f.time = 0) := by
  unfold processPair
  by_cases harc : ty = .G2 ∨ ty = .G3
  · rw [if_pos harc]
    refine ⟨?_, ?_, ?_, ?_⟩
    · exact add_nonneg h1 (div_nonneg (arcFrames_len_nonneg ep sps st.currentTime sIdx pIdx
        (ty = .G2) p1 p2 prm) hs.le)
    · intro f hf
      rcases List.mem_append.mp hf with hm | hm
      · exact h2 f hm
      · exact le_trans h1 (arcFrames_time_ge ep sps st.currentTime sIdx pIdx _ p1 p2 prm hs f hm)
    · intro hemp
      exact absurd (List.append_eq_nil.mp hemp).2
        (arcFrames_ne_nil ep sps st.currentTime sIdx pIdx _ p1 p2 prm)
    · intro _
      by_cases hfr : st.frames = []
      · obtain ⟨f, hfm, hft⟩ := arcFrames_exists_t0 ep sps st.currentTime sIdx pIdx
          (ty = .G2) p1 p2 prm
        refine ⟨f, List.mem_append_right _ hfm, ?_⟩
        rw [hft, h3 hfr]
      · obtain ⟨f, hfm, hft⟩ := h4 hfr
        exact ⟨f, List.mem_append_left _ hfm, hft⟩
  · rw [if_neg harc]
    refine ⟨?_, ?_, ?_, ?_⟩
    · exact add_nonneg h1 (div_nonneg (dist3_nonneg p1 p2) hs.le)
    · intro f hf
      rcases List.mem_append.mp hf with hm | hm
      · exact h2 f hm
      · exact le_trans h1 (lineFrames_time_ge sps st.currentTime sIdx pIdx p1 p2 hs f hm)
    · intro hemp
      exact absurd (List.append_eq_nil.mp hemp).2 (lineFrames_ne_nil sps st.currentTime sIdx pIdx p1 p2)
    · intro _
      by_cases hfr : st.frames = []
      · obtain ⟨f, hfm, hft⟩ := lineFrames_exists_t0 sps st.currentTime sIdx pIdx p1 p2
        refine ⟨f, List.mem_append_right _ hfm, ?_⟩
        rw [hft, h3 hfr]
      · obtain ⟨f, hfm, hft⟩ := h4 hfr
        exact ⟨f, List.mem_append_left _ hfm, hft⟩

theorem pairsFold_ok (ep : EllipseSpec → ℝ → ℝ × ℝ) (sps : ℝ) (sIdx : ℕ) (ty : MoveType)
    (prs : List (ℕ × VPoint × VPoint)) (st : SynthState)
    (hs : 0 < sps) (h1 : 0 ≤ st.currentTime) (h2 : ∀ f ∈ st.frames, 0 ≤ f.time)
    (h3 : st.frames = [] → st.currentTime = 0)
    (h4 : st.frames ≠ [] → ∃ f ∈ st.frames, f.time = 0) :
    0 ≤ (prs.foldl (fun acc pr => processPair ep sps sIdx pr.1 ty pr.2.1.position
        pr.2.2.position pr.2.1.params acc) st).currentTime ∧
    (∀ f ∈ (prs.foldl (fun acc pr => processPair ep sps sIdx pr.1 ty pr.2.1.position
        pr.2.2.position pr.2.1.params acc) st).frames, 0 ≤ f.time) ∧
    ((prs.foldl (fun acc pr => processPair ep sps sIdx pr.1 ty pr.2.1.position
        pr.2.2.position pr.2.1.params acc) st).frames = [] →
      (prs.foldl (fun acc pr => processPair ep sps sIdx pr.1 ty pr.2.1.position
        pr.2.2.position pr.2.1.params acc) st).currentTime = 0) ∧
    ((prs.foldl (fun acc pr => processPair ep sps sIdx pr.1 ty pr.2.1.position
        pr.2.2.position pr.2.1.params acc) st).frames ≠ [] →
      ∃ f ∈ (prs.foldl (fun acc pr => processPair ep sps sIdx pr.1 ty pr.2.1.position
        pr.2.2.position pr.2.1.params acc) st).frames, f.time = 0) := by
  induction prs generalizing st with
  | nil => exact ⟨h1, h2, h3, h4⟩
  | cons pr prs ih =>
    obtain ⟨g1, g2, g3, g4⟩ := processPair_ok ep sps sIdx pr.1 ty pr.2.1.position
      pr.2.2.position pr.2.1.params st hs h1 h2 h3 h4
    exact ih _ g1 g2 g3 g4

theorem processSegment_ok (ep : EllipseSpec → ℝ → ℝ × ℝ) (sps : ℝ) (st : SynthState)
    (sIdx : ℕ) (seg : VSegment)
    (hs : 0 < sps) (h1 : 0 ≤ st.currentTime) (h2 : ∀ f ∈ st.frames, 0 ≤ f.time)
    (h3 : st.frames = [] → st.currentTime = 0)
    (h4 : st.frames ≠ [] → ∃ f ∈ st.frames, f.time = 0) :
    0 ≤ (processSegment ep sps st sIdx seg).currentTime ∧
    (∀ f ∈ (processSegment ep sps st sIdx seg).frames, 0 ≤ f.time) ∧
    ((processSegment ep sps st sIdx seg).frames = [] →
      (processSegment ep sps st sIdx seg).currentTime = 0) ∧
    ((processSegment ep sps st sIdx seg).frames ≠ [] →
      ∃ f ∈ (processSegment ep sps st sIdx seg).frames, f.time = 0) := by
  unfold processSegment
  cases hpts : seg.points with
  | nil => exact ⟨h1, h2, h3, h4⟩
  | cons p rest =>
    cases hrest : rest with
    | nil =>
      cases hlp : st.lastPosition with
      | none =>
        refine ⟨h1, ?_, ?_, ?_⟩
        · intro f hf
          rcases List.mem_append.mp hf with hm | hm
          · exact h2 f hm
          · simp only [List.mem_singleton] at hm
            subst hm
            exact h1
        · intro hemp
          simp at hemp
        · intro _
          by_cases hfr : st.frames = []
          · exact ⟨_, List.mem_append_right _ (List.mem_singleton.mpr rfl), h3 hfr⟩
          · obtain ⟨f, hfm, hft⟩ := h4 hfr
            exact ⟨f, List.mem_append_left _ hfm, hft⟩
      | some lp =>
        exact processPair_ok ep sps sIdx 0 seg.type lp p.position p.params st hs h1 h2 h3 h4
    | cons p2 rest2 =>
      exact pairsFold_ok ep sps sIdx seg.type _ st hs h1 h2 h3 h4

theorem segsFold_ok (ep : EllipseSpec → ℝ → ℝ × ℝ) (sps : ℝ)
    (prs : List (ℕ × VSegment)) (st : SynthState)
    (hs : 0 < sps) (h1 : 0 ≤ st.currentTime) (h2 : ∀ f ∈ st.frames, 0 ≤ f.time)
    (h3 : st.frames = [] → st.currentTime = 0)
    (h4 : st.frames ≠ [] → ∃ f ∈ st.frames, f.time = 0) :
    (∀ f ∈ (prs.foldl (fun acc pr => processSegment ep sps acc pr.1 pr.2) st).frames,
      0 ≤ f.time) ∧
    ((prs.foldl (fun acc pr => processSegment ep sps acc pr.1 pr.2) st).frames ≠ [] →
      ∃ f ∈ (prs.foldl (fun acc pr => processSegment ep sps acc pr.1 pr.2) st).frames,
        f.time = 0) := by
  induction prs generalizing st with
  | nil => exact ⟨h2, h4⟩
  | cons pr prs ih =>
    obtain ⟨g1, g2, g3, g4⟩ := processSegment_ok ep sps st pr.1 pr.2 hs h1 h2 h3 h4
    exact ih _ g1 g2 g3 g4

theorem framesUnsorted_ok (ep : EllipseSpec → ℝ → ℝ × ℝ) (segs : List VSegment)
    (v : ℝ) (hv : 0 < v) :
    (∀ f ∈ framesUnsorted ep segs v, 0 ≤ f.time) ∧
    (framesUnsorted ep segs v ≠ [] → ∃ f ∈ framesUnsorted ep segs v, f.time = 0) := by
  unfold framesUnsorted
  exact segsFold_ok ep (v / 60) segs.enum {} (by positivity) le_rfl
    (by intro f hf; simp at hf) (fun _ => rfl) (by intro hf; simp at hf)

/-- C7: for every segment list and positive playback speed, the
`AnimationFrame` list returned by `calculateAnimationFrames` is
time-monotone (`F[i].time ≤ F[i+1].time` for every adjacent pair), and when
it is non-empty its first frame's time equals `0`. -/
theorem c7_frame_monotonicity (ep : EllipseSpec → ℝ → ℝ × ℝ) (segs : List VSegment)
    (v : ℝ) (hv : 0 < v) :
    List.Chain' (fun a b => a.time ≤ b.time) (calculateAnimationFrames ep segs v) ∧
    (∀ f, (calculateAnimationFrames ep segs v).head? = some f → f.time = 0) := by
  unfold calculateAnimationFrames
  by_cases hsegs : segs.isEmpty
  · simp [hsegs]
  · have hsegs' : segs.isEmpty = false := by
      cases segs <;> simp_all
    simp only [hsegs', Bool.false_eq_true, if_false]
    obtain ⟨hA, hB⟩ := framesUnsorted_ok ep segs v hv
    have htrans : ∀ a b c : AnimationFrame,
        (decide (a.time ≤ b.time)) = true → (decide (b.time ≤ c.time)) = true →
        (decide (a.time ≤ c.time)) = true := by
      intro a b c hab hbc
      rw [decide_eq_true_eq] at *
      exact le_trans hab hbc
    have htot : ∀ a b : AnimationFrame,
        ((decide (a.time ≤ b.time)) || (decide (b.time ≤ a.time))) = true := by
      intro a b
      simp only [Bool.or_eq_true, decide_eq_true_eq]
      exact le_total a.time b.time
    have hsorted := List.sorted_mergeSort htrans htot (framesUnsorted ep segs v)
    have hperm := List.mergeSort_perm (framesUnsorted ep segs v)
      (fun a b => decide (a.time ≤ b.time))
    constructor
    · exact (hsorted.imp (fun h => decide_eq_true_eq.mp h)).chain'
    · intro f hf
      cases hml : (framesUnsorted ep segs v).mergeSort (fun a b => decide (a.time ≤ b.time)) with
      | nil =>
        rw [hml] at hf
        cases hf
      | cons f0 rest =>
        rw [hml] at hf
        injection hf with hf
        subst hf
        have hne : framesUnsorted ep segs v ≠ [] := by
          intro hemp
          rw [hemp] at hml
          simp at hml
        obtain ⟨g, hgm, hgt⟩ := hB hne
        have hgm' : g ∈ f0 :: rest := by
          rw [← hml]
          exact (hperm.mem_iff).mpr hgm
        have hf0 : 0 ≤ f0.time := by
          have : f0 ∈ framesUnsorted ep segs v := by
            apply (hperm.mem_iff).mp
            rw [hml]
            exact List.mem_cons_self _ _
          exact hA f0 this
        rcases List.mem_cons.mp hgm' with hg | hg
        · rw [← hg, hgt]
        · rw [hml] at hsorted
          have := (List.pairwise_cons.mp hsorted).1 g hg
          rw [decide_eq_true_eq] at this
          have : f0.time ≤ 0 := by
            rw [← hgt]
            exact this
          linarith

theorem c7_frame_monotonicity_witness :
    (0 : ℝ) < 60 ∧
    (List.Chain' (fun a b => a.time ≤ b.time) (calculateAnimationFrames epZero [vSegAnchor] 60) ∧
    (∀ f, (calculateAnimationFrames epZero [vSegAnchor] 60).head? = some f → f.time = 0)) :=
  ⟨by norm_num, c7_frame_monotonicity epZero [vSegAnchor] 60 (by norm_num)⟩

/-- C8: for every consecutive point pair `(p1, p2)` of a non-arc (`G0`/`G1`)
segment, the synthesizer emits exactly
`max(10, ceil(2 · distance(p1, p2))) + 1` frames at the equally spaced
parameters `t = i / numFrames`; each frame's position is the per-axis linear
interpolation between the two points at `t`, its time is the running time
accumulator plus `(distance / speed-per-second) · t`, and the frames the
segment loop emits for a two-point non-arc segment are exactly this list
(`lineFrames` is the pair-emission of `framesUnsorted`). -/
theorem c8_line_pair_frames (ep : EllipseSpec → ℝ → ℝ × ℝ) (v t0 : ℝ) (sIdx pIdx : ℕ)
    (P1 P2 : VPoint) (ty : MoveType) (ex : Bool)
    (hv : 0 < v) (hty : ty = .G0 ∨ ty = .G1) :
    (lineFrames (v / 60) t0 sIdx pIdx P1.position P2.position).length =
      max 10 (Int.toNat ⌈dist3 P1.position P2.position * 2⌉) + 1 ∧
    (∀ i (h : i < (lineFrames (v / 60) t0 sIdx pIdx P1.position P2.position).length),
      (lineFrames (v / 60) t0 sIdx pIdx P1.position P2.position).get ⟨i, h⟩ =
        { position := ⟨P1.position.x + (P2.position.x - P1.position.x) *
              ((i : ℝ) / (max 10 (Int.toNat ⌈dist3 P1.position P2.position * 2⌉) : ℕ)),
            P1.position.y + (P2.position.y - P1.position.y) *
              ((i : ℝ) / (max 10 (Int.toNat ⌈dist3 P1.position P2.position * 2⌉) : ℕ)),
            P1.position.z + (P2.position.z - P1.position.z) *
              ((i : ℝ) / (max 10 (Int.toNat ⌈dist3 P1.position P2.position * 2⌉) : ℕ))⟩
          segmentIndex := sIdx
          pointIndex := pIdx
          time := t0 + dist3 P1.position P2.position / (v / 60) *
            ((i : ℝ) / (max 10 (Int.toNat ⌈dist3 P1.position P2.position * 2⌉) : ℕ)) }) ∧
    framesUnsorted ep [⟨[P1, P2], ty, ex⟩] v =
      lineFrames (v / 60) 0 0 0 P1.position P2.position := by
  refine ⟨?_, ?_, ?_⟩
  · rw [lineFrames_shape]
    simp
  · intro i h
    simp only [lineFrames_shape, List.get_eq_getElem, List.getElem_map, List.getElem_range]
    congr 1
    ring
  · rcases hty with hty | hty <;> subst hty <;> rfl

theorem c8_line_pair_frames_witness :
    (0 : ℝ) < 60 ∧ (MoveType.G0 = MoveType.G0 ∨ MoveType.G0 = MoveType.G1) ∧
    ((lineFrames ((60 : ℝ) / 60) 0 0 0 vPointA.position vPointB.position).length =
      max 10 (Int.toNat ⌈dist3 vPointA.position vPointB.position * 2⌉) + 1 ∧
    (∀ i (h : i < (lineFrames ((60 : ℝ) / 60) 0 0 0 vPointA.position vPointB.position).length),
      (lineFrames ((60 : ℝ) / 60) 0 0 0 vPointA.position vPointB.position).get ⟨i, h⟩ =
        { position := ⟨vPointA.position.x + (vPointB.position.x - vPointA.position.x) *
              ((i : ℝ) / (max 10 (Int.toNat ⌈dist3 vPointA.position vPointB.position * 2⌉) : ℕ)),
            vPointA.position.y + (vPointB.position.y - vPointA.position.y) *
              ((i : ℝ) / (max 10 (Int.toNat ⌈dist3 vPointA.position vPointB.position * 2⌉) : ℕ)),
            vPointA.position.z + (vPointB.position.z - vPointA.position.z) *
              ((i : ℝ) / (max 10 (Int.toNat ⌈dist3 vPointA.position vPointB.position * 2⌉) : ℕ))⟩
          segmentIndex := 0
          pointIndex := 0
          time := 0 + dist3 vPointA.position vPointB.position / ((60 : ℝ) / 60) *
            ((i : ℝ) / (max 10 (Int.toNat ⌈dist3 vPointA.position vPointB.position * 2⌉) : ℕ)) }) ∧
    framesUnsorted epZero [⟨[vPointA, vPointB], .G0, false⟩] 60 =
      lineFrames ((60 : ℝ) / 60) 0 0 0 vPointA.position vPointB.position) :=
  ⟨by norm_num, Or.inl rfl,
    c8_line_pair_frames epZero 60 0 0 0 vPointA vPointB .G0 false (by norm_num) (Or.inl rfl)⟩
